import Mathlib

/-!
Verification of the JPEG 2000 (JP2/JPX) box reader/writer core described by
the repository specification.  The repository ships only the test suite for
the box machinery, so the box data model, the serializers, the recursive
superbox tree builder, the write-time validators, the wrap assembler, the
ICC-profile header parser and the reader-requirements parser are modelled
here from the specification and then proved against the documented
properties (round-trips, validation rules, placement rules, decode-warning
behaviour).

All multi-byte integers are big-endian, as the container format demands.
Bytes are modelled as natural numbers below 256, byte streams as `List Nat`.
-/

namespace Glymur

/-- Big-endian encoding of `n` into exactly `w` bytes (most significant
first); overflowing bits are dropped, matching a `w`-byte binary field. -/
def toBytesBE : Nat → Nat → List Nat
  | 0, _ => []
  | w + 1, n => toBytesBE w (n / 256) ++ [n % 256]

/-- Big-endian decoding of a byte list into a natural number. -/
def fromBytesBE : List Nat → Nat
  | [] => 0
  | b :: bs => b * 256 ^ bs.length + fromBytesBE bs

/-! ### Box identifiers (4-byte type codes, given as their byte values) -/

/-- The 4-byte code of the JPEG 2000 Signature box. -/
def sigId : List Nat := [106, 80, 32, 32]

/-- Fixed payload of the Signature box. -/
def sigMagic : List Nat := [13, 10, 135, 10]

/-- The 4-byte code of the File Type box. -/
def ftypId : List Nat := [102, 116, 121, 112]

/-- The 4-byte code of the JP2 Header superbox. -/
def jp2hId : List Nat := [106, 112, 50, 104]

/-- The 4-byte code of the Contiguous Codestream box. -/
def jp2cId : List Nat := [106, 112, 50, 99]

/-- The 4-byte code of the XML box. -/
def xmlId : List Nat := [120, 109, 108, 32]

/-- The 4-byte code of the Label box. -/
def lblId : List Nat := [108, 98, 108, 32]

/-- The 4-byte code of the Number List box. -/
def nlstId : List Nat := [110, 108, 115, 116]

/-- The 4-byte code of the Association superbox. -/
def asocId : List Nat := [97, 115, 111, 99]

/-- The 4-byte code of the Fragment List box. -/
def flstId : List Nat := [102, 108, 115, 116]

/-- The 4-byte code of the Fragment Table superbox. -/
def ftblId : List Nat := [102, 116, 98, 108]

/-- The 4-byte code of the Data Entry URL box. -/
def urlId : List Nat := [117, 114, 108, 32]

/-- The 4-byte code of the Data Reference box. -/
def dtblId : List Nat := [100, 116, 98, 108]

/-- The 4-byte code of the Free box. -/
def freeId : List Nat := [102, 114, 101, 101]

/-- The brand code of the JP2 format. -/
def jp2Brand : List Nat := [106, 112, 50, 32]

/-- The brand code of the JPX format. -/
def jpxBrand : List Nat := [106, 112, 120, 32]

/-- The jpxb (JPX baseline) compatibility code. -/
def jpxbBrand : List Nat := [106, 112, 120, 98]

/-! ### The box data model -/

/-- Modelled from the spec: the polymorphic box entity of the JP2/JPX
container format (section 3 of the spec).  Each box kind owns its
kind-specific payload fields; superbox kinds (`jp2Header`, `association`,
`fragmentTable`, `dataReference`, and the unknown-container case) own an
ordered list of child boxes.  The source file `glymur/jp2box.py` defining
the corresponding Python classes is not part of the visible sources, so the
field sets follow the spec's data model: the File Type box owns
`brand`, `minor_version` and `compatibility_list`; the Fragment List box
owns the three parallel arrays `fragment_offset`, `fragment_length` and
`data_reference` (caller-supplied integers, hence `Int`); the Data Entry
URL box owns flag, version and URL bytes; unknown box ids are preserved
verbatim together with their raw payload and any parsed children. -/
inductive Box where
  | signature : Box
  | fileType (brand : List Nat) (minorVersion : Nat)
      (compatibilityList : List (List Nat)) : Box
  | jp2Header (box : List Box) : Box
  | codestream (payload : List Nat) : Box
  | xmlBox (xml : List Nat) : Box
  | labelBox (label : List Nat) : Box
  | numberList (associations : List Nat) : Box
  | association (box : List Box) : Box
  | fragmentList (fragmentOffset fragmentLength dataReference : List Int) : Box
  | fragmentTable (box : List Box) : Box
  | dataEntryURL (flag : Nat) (version : List Nat) (url : List Nat) : Box
  | dataReference (box : List Box) : Box
  | freeBox (payload : List Nat) : Box
  | unknownBox (boxId : List Nat) (box : List Box) (payload : List Nat) : Box

/-- Concatenate a list of byte lists. -/
def flat : List (List Nat) → List Nat
  | [] => []
  | xs :: xss => xs ++ flat xss

/-- Modelled from the spec: the box header written ahead of every payload —
a `uint32` big-endian total length (header plus payload) followed by the
4-byte box type code (spec section 6). -/
def mkBox (id payload : List Nat) : List Nat :=
  toBytesBE 4 (payload.length + 8) ++ id ++ payload

/-- Payload of a Fragment List box after the entry count: per fragment an
8-byte offset, a 4-byte length and a 2-byte data-reference index
(spec section 4.4). -/
def flstEntries : List Int → List Int → List Int → List Nat
  | o :: os, l :: ls, r :: rs =>
      toBytesBE 8 o.toNat ++ toBytesBE 4 l.toNat ++ toBytesBE 2 r.toNat ++
        flstEntries os ls rs
  | _, _, _ => []

mutual

/-- Modelled from the spec: the per-kind serialize routine of the Box
Variant Set (spec section 4.4), writing the box header followed by the
kind-specific payload.  The Fragment List payload is a 2-byte count then
count × (uint64 offset, uint32 length, uint16 reference); the Data
Reference payload is a 2-byte count then the serialized Data Entry URL
children; superboxes serialize their children in order; unknown boxes
re-emit their raw payload verbatim. -/
def serializeBox : Box → List Nat
  | .signature => mkBox sigId sigMagic
  | .fileType brand minor cl =>
      mkBox ftypId (brand ++ toBytesBE 4 minor ++ flat cl)
  | .jp2Header cs => mkBox jp2hId (serializeBoxes cs)
  | .codestream p => mkBox jp2cId p
  | .xmlBox x => mkBox xmlId x
  | .labelBox l => mkBox lblId l
  | .numberList as => mkBox nlstId (flat (as.map (toBytesBE 4)))
  | .association cs => mkBox asocId (serializeBoxes cs)
  | .fragmentList o l r =>
      mkBox flstId (toBytesBE 2 o.length ++ flstEntries o l r)
  | .fragmentTable cs => mkBox ftblId (serializeBoxes cs)
  | .dataEntryURL f v u => mkBox urlId (f :: v ++ u)
  | .dataReference cs =>
      mkBox dtblId (toBytesBE 2 cs.length ++ serializeBoxes cs)
  | .freeBox p => mkBox freeId p
  | .unknownBox id _ p => mkBox id p

/-- Serialize an ordered list of boxes back to back. -/
def serializeBoxes : List Box → List Nat
  | [] => []
  | b :: bs => serializeBox b ++ serializeBoxes bs

end

/-! ### Payload-level parsers for the non-superbox kinds -/

/-- Split a byte list into consecutive 4-byte groups (a shorter final
group is kept as is; the callers check divisibility by 4 first). -/
def chunk4 : List Nat → List (List Nat)
  | [] => []
  | a :: b :: c :: d :: rest => [a, b, c, d] :: chunk4 rest
  | bs => [bs]

/-- Modelled from the spec: File Type box payload — 4-byte brand, uint32
minor version, then a sequence of 4-byte compatibility codes. -/
def parseFtyp (p : List Nat) : Option Box :=
  if 8 ≤ p.length ∧ (p.length - 8) % 4 = 0 then
    some (.fileType (p.take 4) (fromBytesBE ((p.drop 4).take 4))
      (chunk4 (p.drop 8)))
  else none

/-- Modelled from the spec: Number List box payload — an ordered sequence
of uint32 association codes. -/
def parseNlst (p : List Nat) : Option Box :=
  if p.length % 4 = 0 then some (.numberList ((chunk4 p).map fromBytesBE))
  else none

/-- Read `n` fragment entries of 14 bytes each (uint64 offset, uint32
length, uint16 data-reference index); the payload must end exactly after
the declared count. -/
def parseFlstEntries : Nat → List Nat → Option (List Int × List Int × List Int)
  | 0, rest => if rest = [] then some ([], [], []) else none
  | n + 1, bs =>
      if 14 ≤ bs.length then
        match parseFlstEntries n (bs.drop 14) with
        | some (os, ls, rs) =>
            some (((fromBytesBE (bs.take 8) : Nat) : Int) :: os,
                  ((fromBytesBE ((bs.drop 8).take 4) : Nat) : Int) :: ls,
                  ((fromBytesBE ((bs.drop 12).take 2) : Nat) : Int) :: rs)
        | none => none
      else none

/-- Modelled from the spec: Fragment List box payload — a 2-byte entry
count followed by the fragment entries. -/
def parseFlst (p : List Nat) : Option Box :=
  if 2 ≤ p.length then
    match parseFlstEntries (fromBytesBE (p.take 2)) (p.drop 2) with
    | some (os, ls, rs) => some (.fragmentList os ls rs)
    | none => none
  else none

/-- Strip trailing NUL bytes, as the Data Entry URL reader does. -/
def dropTrailingZeros (bs : List Nat) : List Nat :=
  (bs.reverse.dropWhile (fun b => b == 0)).reverse

/-- Modelled from the spec: Data Entry URL box payload — a 1-byte flag, a
3-byte version, then the URL string whose trailing NUL padding is stripped
on read (spec section 4.4). -/
def parseUrl (p : List Nat) : Option Box :=
  match p with
  | f :: rest =>
      if 3 ≤ rest.length then
        some (.dataEntryURL f (rest.take 3) (dropTrailingZeros (rest.drop 3)))
      else none
  | [] => none

/-! ### Box registry -/

/-- The dispatch outcome of the Box Registry: one tag per recognized box
kind, plus a tag for unrecognized 4-byte codes. -/
inductive BoxKind where
  | sigK | ftypK | jp2hK | jp2cK | xmlK | lblK | nlstK
  | asocK | flstK | ftblK | urlK | dtblK | freeK | unknownK

/-- Modelled from the spec: the Box Registry (spec section 4.2) resolving a
4-byte box type code to its variant; unknown codes resolve to the generic
opaque-box constructor. -/
def boxKindOf (id : List Nat) : BoxKind :=
  if id = sigId then .sigK
  else if id = ftypId then .ftypK
  else if id = jp2hId then .jp2hK
  else if id = jp2cId then .jp2cK
  else if id = xmlId then .xmlK
  else if id = lblId then .lblK
  else if id = nlstId then .nlstK
  else if id = asocId then .asocK
  else if id = flstId then .flstK
  else if id = ftblId then .ftblK
  else if id = urlId then .urlK
  else if id = dtblId then .dtblK
  else if id = freeId then .freeK
  else .unknownK

/-- Render a 4-byte code as text for diagnostics. -/
def fourcc (id : List Nat) : String := String.mk (id.map Char.ofNat)

/-- Decode warning raised for an unrecognized box type code. -/
def warnUnknown (id : List Nat) : String :=
  "unrecognized box id " ++ fourcc id

/-- Decode warning raised when a recognized box kind has an undecodable
payload and is kept as raw bytes instead. -/
def warnMalformed (id : List Nat) : String :=
  "malformed payload in box " ++ fourcc id

/-- The raw/opaque substitute for a box whose payload could not be
decoded: the box id and payload are preserved verbatim and a decode
warning is attached (spec section 4.3 resilience policy). -/
def rawFallback (id payload : List Nat) : Box × List String :=
  (.unknownBox id [] payload, [warnMalformed id])

/-! ### The superbox tree builder

The builder is a recursive descent; recursion is expressed with a fuel
argument on the sequence parser, while the single-box step and the payload
decoder take the child-sequence parser as an explicit argument (the
"bounded recursion" of spec section 4.3).  Any fuel larger than the byte
length of the region is sufficient. -/

/-- Modelled from the spec: the per-kind parse routine of the Box Variant
Set (spec section 4.4), given the child-sequence parser, the box id and the
payload region.  Superbox kinds recurse into the tree builder over the
payload; an unrecognized id whose payload parses as a well-formed nested
box sequence becomes an unknown container with children and a decode
warning, otherwise the payload is preserved as raw bytes (spec sections
4.2 and 4.4). -/
def decodeBody (recur : List Nat → Option (List Box × List String))
    (id payload : List Nat) : Box × List String :=
  match boxKindOf id with
  | .sigK =>
      if payload = sigMagic then (.signature, []) else rawFallback id payload
  | .ftypK =>
      match parseFtyp payload with
      | some b => (b, [])
      | none => rawFallback id payload
  | .jp2hK =>
      match recur payload with
      | some (cs, ws) => (.jp2Header cs, ws)
      | none => rawFallback id payload
  | .jp2cK => (.codestream payload, [])
  | .xmlK => (.xmlBox payload, [])
  | .lblK => (.labelBox payload, [])
  | .nlstK =>
      match parseNlst payload with
      | some b => (b, [])
      | none => rawFallback id payload
  | .asocK =>
      match recur payload with
      | some (cs, ws) => (.association cs, ws)
      | none => rawFallback id payload
  | .flstK =>
      match parseFlst payload with
      | some b => (b, [])
      | none => rawFallback id payload
  | .ftblK =>
      match recur payload with
      | some (cs, ws) => (.fragmentTable cs, ws)
      | none => rawFallback id payload
  | .urlK =>
      match parseUrl payload with
      | some b => (b, [])
      | none => rawFallback id payload
  | .dtblK =>
      if 2 ≤ payload.length then
        match recur (payload.drop 2) with
        | some (cs, ws) =>
            if cs.length = fromBytesBE (payload.take 2) then
              (.dataReference cs, ws)
            else rawFallback id payload
        | none => rawFallback id payload
      else rawFallback id payload
  | .freeK => (.freeBox payload, [])
  | .unknownK =>
      if payload = [] then (.unknownBox id [] payload, [warnUnknown id])
      else
        match recur payload with
        | some (cs, ws) => (.unknownBox id cs payload, warnUnknown id :: ws)
        | none => (.unknownBox id [] payload, [warnUnknown id])

/-- Modelled from the spec: the header step of the Superbox Tree Builder
(spec section 4.3) — read the uint32 length and 4-byte id, honour the
special length values 0 (extends to the end of the region) and 1 (8-byte
extended length follows), and check the declared length against the
remaining byte budget.  Returns the box id, the payload region and the
remaining bytes after the box; a length exceeding the remaining budget is
a structural error. -/
def splitBox (bs : List Nat) : Option (List Nat × List Nat × List Nat) :=
  if bs.length < 8 then none
  else if fromBytesBE (bs.take 4) = 0 then
    some ((bs.drop 4).take 4, bs.drop 8, [])
  else if fromBytesBE (bs.take 4) = 1 then
    if bs.length < 16 then none
    else if 16 ≤ fromBytesBE ((bs.drop 8).take 8) ∧
        fromBytesBE ((bs.drop 8).take 8) ≤ bs.length then
      some ((bs.drop 4).take 4,
        (bs.drop 16).take (fromBytesBE ((bs.drop 8).take 8) - 16),
        bs.drop (fromBytesBE ((bs.drop 8).take 8)))
    else none
  else if 8 ≤ fromBytesBE (bs.take 4) ∧ fromBytesBE (bs.take 4) ≤ bs.length then
    some ((bs.drop 4).take 4,
      (bs.drop 8).take (fromBytesBE (bs.take 4) - 8),
      bs.drop (fromBytesBE (bs.take 4)))
  else none

/-- Modelled from the spec: one step of the Superbox Tree Builder (spec
section 4.3) — split off the box header and payload region, then decode
the payload with the variant resolved by the Box Registry.  Returns the
parsed box, its decode warnings and the remaining bytes after the box. -/
def parseOneBox (recur : List Nat → Option (List Box × List String))
    (bs : List Nat) : Option (Box × List String × List Nat) :=
  match splitBox bs with
  | some (id, payload, rest) =>
      some ((decodeBody recur id payload).1, (decodeBody recur id payload).2,
        rest)
  | none => none

/-- Modelled from the spec: the Superbox Tree Builder loop (spec section
4.3) — parse boxes one after another until the region's byte budget is
exhausted, collecting all decode warnings.  The fuel argument bounds the
recursion depth; any fuel exceeding the byte length of the region is
enough. -/
def parseBoxSeq : Nat → List Nat → Option (List Box × List String)
  | 0, _ => none
  | fuel + 1, bs =>
      if bs = [] then some ([], [])
      else
        match parseOneBox (parseBoxSeq fuel) bs with
        | none => none
        | some (b, ws, rest) =>
            match parseBoxSeq fuel rest with
            | none => none
            | some (bs', ws') => some (b :: bs', ws ++ ws')

/-! ### Well-formed box instances

`wfBox` captures the instances a caller can faithfully write and re-read:
every byte-valued field holds bytes, every fixed-width integer field fits
its width, the Fragment List arrays satisfy the write-time validation
rules, URL strings carry no trailing NUL (the reader strips it), and every
box (and every nested box) fits the uint32 length field of its header. -/

/-- All entries are bytes. -/
def bytesOk (p : List Nat) : Bool := p.all (fun b => b < 256)

/-- Modelled from the spec: the write-time validation rule of the Fragment
List box — the three parallel arrays have equal cardinality of at least 1,
every offset is positive and every length is positive (spec section 3). -/
def flstValid (o l r : List Int) : Bool :=
  o.length == l.length && l.length == r.length && o.length != 0 &&
    o.all (fun x => 0 < x) && l.all (fun x => 0 < x)

mutual

/-- A single box all of whose fields (and descendants) serialize
faithfully; unknown/opaque boxes are excluded. -/
def wfBox : Box → Bool
  | .signature => true
  | .fileType brand minor cl =>
      brand.length == 4 && bytesOk brand && minor < 4294967296 &&
        cl.all (fun c => c.length == 4 && bytesOk c) &&
        (serializeBox (.fileType brand minor cl)).length < 4294967296
  | .jp2Header cs =>
      wfList cs && (serializeBox (.jp2Header cs)).length < 4294967296
  | .codestream p =>
      bytesOk p && (serializeBox (.codestream p)).length < 4294967296
  | .xmlBox x =>
      bytesOk x && (serializeBox (.xmlBox x)).length < 4294967296
  | .labelBox l =>
      bytesOk l && (serializeBox (.labelBox l)).length < 4294967296
  | .numberList as =>
      as.all (fun a => a < 4294967296) &&
        (serializeBox (.numberList as)).length < 4294967296
  | .association cs =>
      wfList cs && (serializeBox (.association cs)).length < 4294967296
  | .fragmentList o l r =>
      flstValid o l r && o.length < 65536 &&
        o.all (fun x => x < 18446744073709551616) &&
        l.all (fun x => x < 4294967296) &&
        r.all (fun x => 0 ≤ x && x < 65536) &&
        (serializeBox (.fragmentList o l r)).length < 4294967296
  | .fragmentTable cs =>
      wfList cs && (serializeBox (.fragmentTable cs)).length < 4294967296
  | .dataEntryURL f v u =>
      f < 256 && v.length == 3 && bytesOk v && bytesOk u &&
        dropTrailingZeros u == u &&
        (serializeBox (.dataEntryURL f v u)).length < 4294967296
  | .dataReference cs =>
      cs.length < 65536 && wfList cs &&
        (serializeBox (.dataReference cs)).length < 4294967296
  | .freeBox p =>
      bytesOk p && (serializeBox (.freeBox p)).length < 4294967296
  | .unknownBox _ _ _ => false

/-- All boxes of a list are well formed. -/
def wfList : List Box → Bool
  | [] => true
  | b :: bs => wfBox b && wfList bs

end

/-! ### Write-time validation (spec sections 3 and 7) -/

/-- Structural errors raised by the box `write` operation. -/
inductive WriteError where
  | fragmentListError
  | fragmentTableError
deriving DecidableEq

/-- Is the box a Fragment List box? -/
def isFlst : Box → Bool
  | .fragmentList _ _ _ => true
  | _ => false

mutual

/-- Modelled from the spec: the write-time structural validation run by a
box `write` — a Fragment List must satisfy `flstValid`; a Fragment Table
must have exactly one child and that child must be a Fragment List box;
superboxes validate their children recursively (spec sections 3 and 7). -/
def validBox : Box → Except WriteError Unit
  | .fragmentList o l r =>
      if flstValid o l r then .ok () else .error .fragmentListError
  | .fragmentTable cs =>
      match cs with
      | [c] => if isFlst c then validBox c else .error .fragmentTableError
      | _ => .error .fragmentTableError
  | .jp2Header cs => validList cs
  | .association cs => validList cs
  | .dataReference cs => validList cs
  | _ => .ok ()

/-- Validate a list of boxes in order, failing on the first error. -/
def validList : List Box → Except WriteError Unit
  | [] => .ok ()
  | b :: bs =>
      match validBox b with
      | .ok _ => validList bs
      | .error e => .error e

end

/-- Modelled from the spec: the `write` operation of a box — validate,
then serialize; validation failures are structural errors and the data is
never silently corrected (spec sections 3 and 7). -/
def writeBox (b : Box) : Except WriteError (List Nat) :=
  match validBox b with
  | .ok _ => .ok (serializeBox b)
  | .error e => .error e

/-! ### The structural validator / wrap assembler (spec section 4.6) -/

/-- The immediate children of a box (empty for non-superbox kinds). -/
def childBoxes : Box → List Box
  | .jp2Header cs => cs
  | .association cs => cs
  | .fragmentTable cs => cs
  | .dataReference cs => cs
  | .unknownBox _ cs _ => cs
  | _ => []

mutual

/-- All proper descendants of a box. -/
def descBox : Box → List Box
  | .jp2Header cs => descList cs
  | .association cs => descList cs
  | .fragmentTable cs => descList cs
  | .dataReference cs => descList cs
  | .unknownBox _ cs _ => descList cs
  | _ => []

/-- All boxes of a forest: the listed boxes and all their descendants. -/
def descList : List Box → List Box
  | [] => []
  | b :: bs => b :: (descBox b ++ descList bs)

end

/-- Is the box a Data Reference box? -/
def isDtbl : Box → Bool
  | .dataReference _ => true
  | _ => false

/-- Is the box a Label box? -/
def isLbl : Box → Bool
  | .labelBox _ => true
  | _ => false

/-- Is the box an Association box? -/
def isAsoc : Box → Bool
  | .association _ => true
  | _ => false

/-- Modelled from the spec: the box kinds specific to the JPX family
(spec section 4.6 rule 4 names Fragment Table, Association, Data
Reference "etc.", which also covers their companions Number List,
Fragment List and Label). -/
def isJpxOnly : Box → Bool
  | .association _ => true
  | .numberList _ => true
  | .fragmentTable _ => true
  | .fragmentList _ _ _ => true
  | .dataReference _ => true
  | .labelBox _ => true
  | _ => false

/-- No member of the list is a Label box. -/
def noLblChild (cs : List Box) : Bool := cs.all (fun c => !(isLbl c))

mutual

/-- Modelled from the spec: rule 2 of the wrap validator inside one box —
every Label box must have an Association box as its immediate parent, so
any superbox other than an Association must have no Label child
(spec section 4.6). -/
def lblOkBox : Box → Bool
  | .association cs => lblOkList cs
  | .jp2Header cs => noLblChild cs && lblOkList cs
  | .fragmentTable cs => noLblChild cs && lblOkList cs
  | .dataReference cs => noLblChild cs && lblOkList cs
  | .unknownBox _ cs _ => noLblChild cs && lblOkList cs
  | _ => true

/-- Rule 2 over a list of boxes. -/
def lblOkList : List Box → Bool
  | [] => true
  | b :: bs => lblOkBox b && lblOkList bs

end

/-- The brand and compatibility list of the first File Type box of the
list, if any. -/
def findFtyp : List Box → Option (List Nat × List (List Nat))
  | [] => none
  | .fileType b _ cl :: _ => some (b, cl)
  | _ :: bs => findFtyp bs

/-- Does the 4-byte brand code declare the JPX family? -/
def brandIsJpx (b : List Nat) : Bool := b == jpxBrand || b == jpxbBrand

/-- Is any JPX-only box kind present anywhere in the forest? -/
def jpxPresent (boxes : List Box) : Bool := (descList boxes).any isJpxOnly

/-- The distinct fail-fast errors of the wrap validator, one per rule of
spec section 4.6. -/
inductive WrapError where
  | dataReferenceError
  | labelError
  | compatibilityError
  | brandError
deriving DecidableEq

/-- Modelled from the spec: the Structural Validator / Wrap Assembler
(spec section 4.6).  Given the caller-supplied ordered top-level box list
it checks, in order: (1) at most one Data Reference box and only at top
level; (2) every Label box has an Association box as immediate parent;
(3) a JPX-family brand requires the compatibility list to include the jp2
code; (4) the presence of any JPX-only box kind requires a JPX-family
brand.  Each rule failure is a distinct error; on success the box list is
serialized recursively. -/
def wrap (boxes : List Box) : Except WrapError (List Nat) :=
  if 1 < boxes.countP isDtbl || boxes.any (fun b => (descBox b).any isDtbl) then
    .error .dataReferenceError
  else if !(noLblChild boxes && lblOkList boxes) then
    .error .labelError
  else if (match findFtyp boxes with
           | some (b, cl) => brandIsJpx b && !(cl.contains jp2Brand)
           | none => false) then
    .error .compatibilityError
  else if jpxPresent boxes && !(match findFtyp boxes with
           | some (b, _) => brandIsJpx b
           | none => false) then
    .error .brandError
  else .ok (serializeBoxes boxes)

/-! ### The ICC profile header parser (spec section 4.4) -/

/-- The decoded ICC profile header fields, named as the spec names them. -/
structure IccProfile where
  size : Nat
  preferredCmmType : Nat
  version : String
  deviceClass : String
  colorSpace : String
  datetime : Nat × Nat × Nat × Nat × Nat × Nat
  fileSignature : String
  platform : String
  flags : String
  deviceManufacturer : String
  deviceModel : String
  deviceAttributes : String
  renderingIntent : String
  illuminant : ℚ × ℚ × ℚ
  creator : String
deriving DecidableEq

/-- Read a `w`-byte big-endian integer at byte offset `off`. -/
def readBE (bs : List Nat) (off w : Nat) : Nat :=
  fromBytesBE ((bs.drop off).take w)

/-- Modelled from the spec: the device class enum of the ICC header. -/
def deviceClassOf (code : List Nat) : String :=
  if code = [115, 99, 110, 114] then "input device profile"
  else if code = [109, 110, 116, 114] then "display device profile"
  else if code = [112, 114, 116, 114] then "output device profile"
  else if code = [108, 105, 110, 107] then "device link profile"
  else if code = [115, 112, 97, 99] then "color space conversion profile"
  else if code = [97, 98, 115, 116] then "abstract profile"
  else if code = [110, 109, 99, 108] then "named color profile"
  else "unrecognized"

/-- Modelled from the spec: the color-space signature of the ICC header. -/
def colorSpaceOf (code : List Nat) : String :=
  if code = [82, 71, 66, 32] then "RGB"
  else if code = [88, 89, 90, 32] then "XYZ"
  else if code = [76, 97, 98, 32] then "Lab"
  else if code = [71, 82, 65, 89] then "gray"
  else "unrecognized"

/-- Modelled from the spec: the platform enum of the ICC header, with an
"unrecognized" fallback. -/
def platformOf (code : List Nat) : String :=
  if code = [65, 80, 80, 76] then "Apple Computer"
  else if code = [77, 83, 70, 84] then "Microsoft Corporation"
  else if code = [83, 71, 73, 32] then "Silicon Graphics"
  else if code = [83, 85, 78, 87] then "Sun Microsystems"
  else "unrecognized"

/-- Modelled from the spec: the profile flag bitfield decoded into the
descriptive embedded / independent-use text. -/
def flagsOf (f : Nat) : String :=
  (if f % 2 = 1 then "embedded" else "not embedded") ++ ", " ++
    (if f / 2 % 2 = 1 then "cannot" else "can") ++ " be used independently"

/-- Modelled from the spec: the 64-bit device attribute flags decoded into
reflective/transmissive, glossy/matte, media polarity and media color. -/
def deviceAttributesOf (a : Nat) : String :=
  (if a % 2 = 1 then "transparency" else "reflective") ++ ", " ++
    (if a / 2 % 2 = 1 then "matte" else "glossy") ++ ", " ++
    (if a / 4 % 2 = 1 then "negative" else "positive") ++
    " media polarity, " ++
    (if a / 8 % 2 = 1 then "black and white" else "color") ++ " media"

/-- Modelled from the spec: the rendering intent enum of the ICC header. -/
def renderingIntentOf (n : Nat) : String :=
  if n = 0 then "perceptual"
  else if n = 1 then "media-relative colorimetric"
  else if n = 2 then "saturation"
  else if n = 3 then "ICC-absolute colorimetric"
  else "unrecognized"

/-- Modelled from the spec: the profile version string from its two
version bytes — major version, then minor and bugfix nibbles. -/
def versionOf (b8 b9 : Nat) : String :=
  Nat.repr b8 ++ "." ++ Nat.repr (b9 / 16) ++ "." ++ Nat.repr (b9 % 16)

/-- An s15Fixed16 fixed-point number: a signed 32-bit raw value scaled by
65536. -/
def s15f16 (raw : Nat) : ℚ :=
  (if raw < 2147483648 then (raw : ℚ) else (raw : ℚ) - 4294967296) / 65536

/-- The 'acsp' ICC file-signature bytes. -/
def acspCode : List Nat := [97, 99, 115, 112]

/-- Decode warning raised for a corrupted ICC file signature. -/
def iccSigWarning : String := "invalid ICC profile signature"

/-- Modelled from the spec: decode the fields of the 128-byte ICC profile
header (spec section 4.4): size, preferred CMM type, version nibbles,
device class, color space, date-time, file signature, platform with an
unrecognized fallback, flag bitfield, device manufacturer and model,
64-bit device attributes, rendering intent, XYZ illuminant fixed-point
triple and creator. -/
def decodeIccHeader (bs : List Nat) : IccProfile where
  size := readBE bs 0 4
  preferredCmmType := readBE bs 4 4
  version := versionOf (readBE bs 8 1) (readBE bs 9 1)
  deviceClass := deviceClassOf ((bs.drop 12).take 4)
  colorSpace := colorSpaceOf ((bs.drop 16).take 4)
  datetime := (readBE bs 24 2, readBE bs 26 2, readBE bs 28 2,
    readBE bs 30 2, readBE bs 32 2, readBE bs 34 2)
  fileSignature := fourcc ((bs.drop 36).take 4)
  platform := platformOf ((bs.drop 40).take 4)
  flags := flagsOf (readBE bs 44 4)
  deviceManufacturer := fourcc ((bs.drop 48).take 4)
  deviceModel := fourcc ((bs.drop 52).take 4)
  deviceAttributes := deviceAttributesOf (readBE bs 56 8)
  renderingIntent := renderingIntentOf (readBE bs 64 4)
  illuminant := (s15f16 (readBE bs 68 4), s15f16 (readBE bs 72 4),
    s15f16 (readBE bs 76 4))
  creator := fourcc ((bs.drop 80).take 4)

/-- Modelled from the spec: parse an ICC profile — a profile shorter than
the 128-byte header is a structural error; a corrupted 'acsp' signature
raises a decode warning but the profile is still returned with
best-effort fields (spec sections 4.4 and 7). -/
def parseIcc (bs : List Nat) : Option (IccProfile × List String) :=
  if bs.length < 128 then none
  else some (decodeIccHeader bs,
    if (bs.drop 36).take 4 = acspCode then [] else [iccSigWarning])

/-- The 128-byte header of the 546-byte ICC profile of the conformance
file5 example, followed by the remaining 418 profile bytes: size 546,
CMM type 0, version bytes 2.2.0, device class scnr, color space RGB,
PCS XYZ, date-time 2001-08-30 13:32:37, signature acsp, platform 0,
flags 1 (embedded), manufacturer KODA, model ROMM, attributes 0,
rendering intent 0, the D50 illuminant raw triple, creator JPEG. -/
def file5IccBytes : List Nat :=
  toBytesBE 4 546 ++ toBytesBE 4 0 ++ [2, 32, 0, 0] ++
    [115, 99, 110, 114] ++ [82, 71, 66, 32] ++ [88, 89, 90, 32] ++
    toBytesBE 2 2001 ++ toBytesBE 2 8 ++ toBytesBE 2 30 ++
    toBytesBE 2 13 ++ toBytesBE 2 32 ++ toBytesBE 2 37 ++
    [97, 99, 115, 112] ++ toBytesBE 4 0 ++ toBytesBE 4 1 ++
    [75, 79, 68, 65] ++ [82, 79, 77, 77] ++ toBytesBE 8 0 ++
    toBytesBE 4 0 ++ toBytesBE 4 63190 ++ toBytesBE 4 65536 ++
    toBytesBE 4 54061 ++ [74, 80, 69, 71] ++ List.replicate 44 0 ++
    List.replicate 418 0

/-- The same profile bytes with the 'acsp' signature byte corrupted. -/
def corruptIccBytes : List Nat := file5IccBytes.set 36 0

/-! ### The Reader Requirements box parser (spec section 4.4) -/

/-- The decoded Reader Requirements box: the declared mask byte-width,
the fully-understand-aspects and display-contents masks, the ordered
standard flags with their masks, and the vendor features with theirs. -/
structure RreqBox where
  maskLength : Nat
  fuam : Nat
  dcm : Nat
  standardFlag : List Nat
  standardMask : List Nat
  vendorFeature : List (List Nat)
  vendorMask : List Nat
deriving DecidableEq

/-- Read `n` standard-flag entries, each a uint16 flag followed by a
mask of the declared `ml` bytes. -/
def parseRreqStd (ml : Nat) : Nat → List Nat →
    Option ((List Nat × List Nat) × List Nat)
  | 0, bs => some (([], []), bs)
  | n + 1, bs =>
      if 2 + ml ≤ bs.length then
        match parseRreqStd ml n (bs.drop (2 + ml)) with
        | some ((fs, ms), rest) =>
            some ((fromBytesBE (bs.take 2) :: fs,
              fromBytesBE ((bs.drop 2).take ml) :: ms), rest)
        | none => none
      else none

/-- Read `n` vendor-feature entries, each a 16-byte UUID followed by a
mask of the declared `ml` bytes. -/
def parseRreqVnd (ml : Nat) : Nat → List Nat →
    Option ((List (List Nat) × List Nat) × List Nat)
  | 0, bs => some (([], []), bs)
  | n + 1, bs =>
      if 16 + ml ≤ bs.length then
        match parseRreqVnd ml n (bs.drop (16 + ml)) with
        | some ((fs, ms), rest) =>
            some ((bs.take 16 :: fs,
              fromBytesBE ((bs.drop 16).take ml) :: ms), rest)
        | none => none
      else none

/-- Modelled from the spec: the Reader Requirements box payload (spec
section 4.4) — a 1-byte mask length, the fully-understand-aspects and
display-contents masks of that many bytes each, a uint16 count of
standard flags each a uint16 flag plus a mask, then a uint16 count of
vendor features each a 16-byte UUID plus a mask.  The parser reads the
declared mask length rather than assuming a fixed width. -/
def parseRreq (p : List Nat) : Option RreqBox :=
  match p with
  | [] => none
  | ml :: rest =>
      if 1 ≤ ml ∧ 2 * ml + 2 ≤ rest.length then
        match parseRreqStd ml (fromBytesBE ((rest.drop (2 * ml)).take 2))
            (rest.drop (2 * ml + 2)) with
        | some ((sfs, sms), rest2) =>
            if 2 ≤ rest2.length then
              match parseRreqVnd ml (fromBytesBE (rest2.take 2))
                  (rest2.drop 2) with
              | some ((vfs, vms), rest3) =>
                  if rest3 = [] then
                    some ⟨ml, fromBytesBE (rest.take ml),
                      fromBytesBE ((rest.drop ml).take ml),
                      sfs, sms, vfs, vms⟩
                  else none
              | none => none
            else none
        | none => none
      else none

/-- Serialize the standard-flag entries of a Reader Requirements box. -/
def encodeRreqStd (ml : Nat) : List Nat → List Nat → List Nat
  | f :: fs, m :: ms =>
      toBytesBE 2 f ++ toBytesBE ml m ++ encodeRreqStd ml fs ms
  | _, _ => []

/-- Serialize the vendor-feature entries of a Reader Requirements box. -/
def encodeRreqVnd (ml : Nat) : List (List Nat) → List Nat → List Nat
  | u :: us, m :: ms => u ++ toBytesBE ml m ++ encodeRreqVnd ml us ms
  | _, _ => []

/-- Modelled from the spec: serialize a Reader Requirements box payload
with its declared mask byte-width. -/
def encodeRreq (r : RreqBox) : List Nat :=
  r.maskLength :: (toBytesBE r.maskLength r.fuam ++
    toBytesBE r.maskLength r.dcm ++
    toBytesBE 2 r.standardFlag.length ++
    encodeRreqStd r.maskLength r.standardFlag r.standardMask ++
    toBytesBE 2 r.vendorFeature.length ++
    encodeRreqVnd r.maskLength r.vendorFeature r.vendorMask)

/-! ### C1: the wrap/serialize–parse round trip, and C10: unknown superboxes -/

/-- A concrete well-formed JPX box list: signature, a JPX File Type box,
a JP2 Header, a codestream, an Association holding a Number List, an XML
box and a Label box, and a Fragment Table holding a Fragment List. -/
def c1Boxes : List Box :=
  [Box.signature,
   Box.fileType jpxBrand 0 [jp2Brand, jpxbBrand],
   Box.jp2Header [Box.freeBox [1, 2, 3]],
   Box.codestream [9, 9],
   Box.association [Box.numberList [0, 1],
     Box.xmlBox [60, 100, 97, 116, 97, 62],
     Box.labelBox [104, 105]],
   Box.fragmentTable [Box.fragmentList [89] [1132288] [0]]]

/-- An unrecognized box id as fabricated by the unknown-superbox test. -/
def grpId : List Nat := [103, 114, 112, 32]

/-- The payload of the fabricated unknown superbox: one serialized Free
box of total length 12 holding four NUL bytes. -/
def freePayloadBytes : List Nat := toBytesBE 4 12 ++ freeId ++ toBytesBE 4 0

/-! ### Theorems -/

theorem length_toBytesBE (w n : Nat) : (toBytesBE w n).length = w := by
  induction w generalizing n with
  | zero => rfl
  | succ w ih => simp [toBytesBE, ih]

theorem fromBytesBE_append_singleton (xs : List Nat) (b : Nat) :
    fromBytesBE (xs ++ [b]) = 256 * fromBytesBE xs + b := by
  induction xs with
  | nil => simp [fromBytesBE]
  | cons x xs ih =>
      show x * 256 ^ (xs ++ [b]).length + fromBytesBE (xs ++ [b]) = _
      rw [ih, List.length_append, List.length_singleton, pow_add]
      show _ = 256 * (x * 256 ^ xs.length + fromBytesBE xs) + b
      ring

theorem fromBytesBE_toBytesBE (w n : Nat) :
    fromBytesBE (toBytesBE w n) = n % 256 ^ w := by
  induction w generalizing n with
  | zero => simp [toBytesBE, fromBytesBE, Nat.mod_one]
  | succ w ih =>
      rw [toBytesBE, fromBytesBE_append_singleton, ih]
      rw [pow_succ, mul_comm (256 ^ w) 256, Nat.mod_mul]
      ring

theorem fromBytesBE_toBytesBE_of_lt {w n : Nat} (h : n < 256 ^ w) :
    fromBytesBE (toBytesBE w n) = n := by
  rw [fromBytesBE_toBytesBE, Nat.mod_eq_of_lt h]

theorem toBytesBE_all_lt (w n : Nat) : ∀ b ∈ toBytesBE w n, b < 256 := by
  induction w generalizing n with
  | zero => intro b hb; simp [toBytesBE] at hb
  | succ w ih =>
      intro b hb
      simp only [toBytesBE, List.mem_append, List.mem_singleton] at hb
      rcases hb with hb | hb
      · exact ih _ b hb
      · subst hb; exact Nat.mod_lt _ (by norm_num)

/-! ### Helper lemmas for the round-trip proof -/

theorem mkBox_length (id p : List Nat) :
    (mkBox id p).length = id.length + p.length + 4 := by
  simp [mkBox, length_toBytesBE]
  omega

theorem length_serializeBox_pos (b : Box) : 4 ≤ (serializeBox b).length := by
  cases b <;> simp [serializeBox, mkBox_length]

theorem length_flat_of_four {cl : List (List Nat)}
    (h : ∀ c ∈ cl, c.length = 4) : (flat cl).length = 4 * cl.length := by
  induction cl with
  | nil => rfl
  | cons c cl ih =>
      simp only [flat, List.length_append, List.length_cons]
      rw [h c (List.mem_cons_self c cl), ih fun x hx => h x (List.mem_cons_of_mem c hx)]
      ring

theorem exists_four_of_length {l : List Nat} (h : l.length = 4) :
    ∃ a b c d, l = [a, b, c, d] := by
  match l, h with
  | [a, b, c, d], _ => exact ⟨a, b, c, d, rfl⟩

theorem chunk4_flat {cl : List (List Nat)}
    (h : ∀ c ∈ cl, c.length = 4) : chunk4 (flat cl) = cl := by
  induction cl with
  | nil => rfl
  | cons c cl ih =>
      obtain ⟨a, b, c', d, rfl⟩ :=
        exists_four_of_length (h _ (List.mem_cons_self _ cl))
      show chunk4 (a :: b :: c' :: d :: flat cl) = _
      rw [show chunk4 (a :: b :: c' :: d :: flat cl)
            = [a, b, c', d] :: chunk4 (flat cl) from rfl,
        ih fun x hx => h x (List.mem_cons_of_mem _ hx)]

theorem splitBox_mkBox (id payload rest : List Nat) (hid : id.length = 4)
    (hlen : payload.length + 8 < 4294967296) :
    splitBox (mkBox id payload ++ rest) = some (id, payload, rest) := by
  have hL4 : (toBytesBE 4 (payload.length + 8)).length = 4 := length_toBytesBE _ _
  have hassoc : mkBox id payload ++ rest
      = toBytesBE 4 (payload.length + 8) ++ (id ++ (payload ++ rest)) := by
    simp [mkBox, List.append_assoc]
  have h256 : (256 : Nat) ^ 4 = 4294967296 := by norm_num
  have hfrom : fromBytesBE ((mkBox id payload ++ rest).take 4)
      = payload.length + 8 := by
    rw [hassoc, List.take_left' hL4, fromBytesBE_toBytesBE_of_lt]
    rw [h256]; exact hlen
  have hid' : ((mkBox id payload ++ rest).drop 4).take 4 = id := by
    rw [hassoc, List.drop_left' hL4, List.take_left' hid]
  have hlen8 : (toBytesBE 4 (payload.length + 8) ++ id).length = 8 := by
    simp [hL4, hid]
  have hdrop8 : (mkBox id payload ++ rest).drop 8 = payload ++ rest := by
    have h2 : mkBox id payload ++ rest
        = (toBytesBE 4 (payload.length + 8) ++ id) ++ (payload ++ rest) := by
      simp [mkBox, List.append_assoc]
    rw [h2, List.drop_left' hlen8]
  have hpay : ((mkBox id payload ++ rest).drop 8).take (payload.length + 8 - 8)
      = payload := by
    rw [hdrop8, Nat.add_sub_cancel, List.take_left' rfl]
  have hlenmk : (mkBox id payload).length = payload.length + 8 := by
    rw [mkBox_length, hid]; omega
  have hrest : (mkBox id payload ++ rest).drop (payload.length + 8) = rest := by
    rw [List.drop_left' hlenmk]
  have hbslen : (mkBox id payload ++ rest).length
      = payload.length + rest.length + 8 := by
    rw [List.length_append, hlenmk]; omega
  unfold splitBox
  rw [hfrom, hid', hpay, hrest, hbslen]
  rw [if_neg (by omega), if_neg (by omega), if_neg (by omega),
    if_pos (by omega : 8 ≤ payload.length + 8 ∧
      payload.length + 8 ≤ payload.length + rest.length + 8)]

theorem parseOneBox_mkBox (recur : List Nat → Option (List Box × List String))
    (id payload rest : List Nat) (hid : id.length = 4)
    (hlen : payload.length + 8 < 4294967296) :
    parseOneBox recur (mkBox id payload ++ rest) =
      some ((decodeBody recur id payload).1,
        (decodeBody recur id payload).2, rest) := by
  unfold parseOneBox
  rw [splitBox_mkBox id payload rest hid hlen]

theorem parseFtyp_roundtrip (brand : List Nat) (minor : Nat)
    (cl : List (List Nat)) (hb : brand.length = 4) (hm : minor < 4294967296)
    (hcl : ∀ c ∈ cl, c.length = 4) :
    parseFtyp (brand ++ toBytesBE 4 minor ++ flat cl)
      = some (.fileType brand minor cl) := by
  have h256 : (256 : Nat) ^ 4 = 4294967296 := by norm_num
  have hm4 : (toBytesBE 4 minor).length = 4 := length_toBytesBE _ _
  have hflat : (flat cl).length = 4 * cl.length := length_flat_of_four hcl
  have hlen : (brand ++ toBytesBE 4 minor ++ flat cl).length
      = 8 + 4 * cl.length := by
    simp [hb, hm4, hflat]; omega
  have htake : (brand ++ toBytesBE 4 minor ++ flat cl).take 4 = brand := by
    rw [List.append_assoc, List.take_left' hb]
  have hdrop4 : ((brand ++ toBytesBE 4 minor ++ flat cl).drop 4).take 4
      = toBytesBE 4 minor := by
    rw [List.append_assoc, List.drop_left' hb, List.take_left' hm4]
  have hdrop8 : (brand ++ toBytesBE 4 minor ++ flat cl).drop 8 = flat cl := by
    have h8 : (brand ++ toBytesBE 4 minor).length = 8 := by simp [hb, hm4]
    rw [List.drop_left' h8]
  unfold parseFtyp
  rw [hlen, htake, hdrop4, hdrop8, fromBytesBE_toBytesBE_of_lt (by omega),
    chunk4_flat hcl, if_pos (by omega)]

theorem parseNlst_roundtrip (as : List Nat) (h : ∀ a ∈ as, a < 4294967296) :
    parseNlst (flat (as.map (toBytesBE 4))) = some (.numberList as) := by
  have h256 : (256 : Nat) ^ 4 = 4294967296 := by norm_num
  have hcl : ∀ c ∈ as.map (toBytesBE 4), c.length = 4 := by
    intro c hc
    obtain ⟨a, _, rfl⟩ := List.mem_map.mp hc
    exact length_toBytesBE _ _
  have hflat : (flat (as.map (toBytesBE 4))).length = 4 * as.length := by
    rw [length_flat_of_four hcl, List.length_map]
  have hmap : (as.map (toBytesBE 4)).map fromBytesBE = as := by
    rw [List.map_map]
    have hc : ∀ a ∈ as, (fromBytesBE ∘ toBytesBE 4) a = id a := by
      intro a ha
      simp only [Function.comp_apply, id_eq]
      exact fromBytesBE_toBytesBE_of_lt (by rw [h256]; exact h a ha)
    rw [List.map_congr_left hc, List.map_id]
  unfold parseNlst
  rw [hflat, chunk4_flat hcl, if_pos (by omega), hmap]

theorem parseFlstEntries_roundtrip (o l r : List Int)
    (h1 : o.length = l.length) (h2 : l.length = r.length)
    (ho : ∀ x ∈ o, 0 ≤ x ∧ x < 18446744073709551616)
    (hl : ∀ x ∈ l, 0 ≤ x ∧ x < 4294967296)
    (hr : ∀ x ∈ r, 0 ≤ x ∧ x < 65536) :
    parseFlstEntries o.length (flstEntries o l r) = some (o, l, r) := by
  induction o generalizing l r with
  | nil =>
      cases l with
      | cons y ys => simp at h1
      | nil =>
          cases r with
          | cons z zs => simp at h2
          | nil => rfl
  | cons x os ih =>
      cases l with
      | nil => simp at h1
      | cons y ls =>
          cases r with
          | nil => simp at h2
          | cons z rs =>
              have hx := ho x (List.mem_cons_self _ _)
              have hy := hl y (List.mem_cons_self _ _)
              have hz := hr z (List.mem_cons_self _ _)
              have e8 : (toBytesBE 8 x.toNat).length = 8 := length_toBytesBE _ _
              have e4 : (toBytesBE 4 y.toNat).length = 4 := length_toBytesBE _ _
              have e2 : (toBytesBE 2 z.toNat).length = 2 := length_toBytesBE _ _
              have hentry : flstEntries (x :: os) (y :: ls) (z :: rs)
                  = toBytesBE 8 x.toNat ++ (toBytesBE 4 y.toNat ++
                    (toBytesBE 2 z.toNat ++ flstEntries os ls rs)) := by
                rw [flstEntries]; simp [List.append_assoc]
              have hlen14 : 14 ≤ (flstEntries (x :: os) (y :: ls) (z :: rs)).length := by
                rw [hentry]
                simp only [List.length_append, e8, e4, e2]
                omega
              have htake8 : (flstEntries (x :: os) (y :: ls) (z :: rs)).take 8
                  = toBytesBE 8 x.toNat := by
                rw [hentry, List.take_left' e8]
              have hd8 : (flstEntries (x :: os) (y :: ls) (z :: rs)).drop 8
                  = toBytesBE 4 y.toNat ++ (toBytesBE 2 z.toNat ++ flstEntries os ls rs) := by
                rw [hentry, List.drop_left' e8]
              have hd8t4 : ((flstEntries (x :: os) (y :: ls) (z :: rs)).drop 8).take 4
                  = toBytesBE 4 y.toNat := by
                rw [hd8, List.take_left' e4]
              have hd12 : (flstEntries (x :: os) (y :: ls) (z :: rs)).drop 12
                  = toBytesBE 2 z.toNat ++ flstEntries os ls rs := by
                have h12 : (toBytesBE 8 x.toNat ++ toBytesBE 4 y.toNat).length = 12 := by
                  simp [e8, e4]
                rw [hentry, ← List.append_assoc, List.drop_left' h12]
              have hd12t2 : ((flstEntries (x :: os) (y :: ls) (z :: rs)).drop 12).take 2
                  = toBytesBE 2 z.toNat := by
                rw [hd12, List.take_left' e2]
              have hd14 : (flstEntries (x :: os) (y :: ls) (z :: rs)).drop 14
                  = flstEntries os ls rs := by
                have h14 : (toBytesBE 8 x.toNat ++ toBytesBE 4 y.toNat ++
                    toBytesBE 2 z.toNat).length = 14 := by
                  simp [e8, e4, e2]
                rw [hentry, ← List.append_assoc, ← List.append_assoc,
                  List.drop_left' h14]
              have hxv : ((fromBytesBE (toBytesBE 8 x.toNat) : Nat) : Int) = x := by
                rw [fromBytesBE_toBytesBE_of_lt (by omega : x.toNat < 256 ^ 8)]
                omega
              have hyv : ((fromBytesBE (toBytesBE 4 y.toNat) : Nat) : Int) = y := by
                rw [fromBytesBE_toBytesBE_of_lt (by omega : y.toNat < 256 ^ 4)]
                omega
              have hzv : ((fromBytesBE (toBytesBE 2 z.toNat) : Nat) : Int) = z := by
                rw [fromBytesBE_toBytesBE_of_lt (by omega : z.toNat < 256 ^ 2)]
                omega
              show parseFlstEntries (os.length + 1)
                (flstEntries (x :: os) (y :: ls) (z :: rs)) = _
              rw [parseFlstEntries, if_pos hlen14, htake8, hd8t4, hd12t2, hd14,
                ih ls rs (by simpa using h1) (by simpa using h2)
                  (fun a ha => ho a (List.mem_cons_of_mem _ ha))
                  (fun a ha => hl a (List.mem_cons_of_mem _ ha))
                  (fun a ha => hr a (List.mem_cons_of_mem _ ha)),
                hxv, hyv, hzv]

theorem parseFlst_roundtrip (o l r : List Int)
    (h1 : o.length = l.length) (h2 : l.length = r.length)
    (hn : o.length < 65536)
    (ho : ∀ x ∈ o, 0 ≤ x ∧ x < 18446744073709551616)
    (hl : ∀ x ∈ l, 0 ≤ x ∧ x < 4294967296)
    (hr : ∀ x ∈ r, 0 ≤ x ∧ x < 65536) :
    parseFlst (toBytesBE 2 o.length ++ flstEntries o l r)
      = some (.fragmentList o l r) := by
  have e2 : (toBytesBE 2 o.length).length = 2 := length_toBytesBE _ _
  have htake : (toBytesBE 2 o.length ++ flstEntries o l r).take 2
      = toBytesBE 2 o.length := List.take_left' e2
  have hdrop : (toBytesBE 2 o.length ++ flstEntries o l r).drop 2
      = flstEntries o l r := List.drop_left' e2
  unfold parseFlst
  rw [htake, hdrop, fromBytesBE_toBytesBE_of_lt (by omega : o.length < 256 ^ 2),
    parseFlstEntries_roundtrip o l r h1 h2 ho hl hr,
    if_pos (by simp [e2] : 2 ≤ (toBytesBE 2 o.length ++ flstEntries o l r).length)]

theorem parseUrl_roundtrip (f : Nat) (v u : List Nat) (hv : v.length = 3)
    (hu : dropTrailingZeros u = u) :
    parseUrl (f :: v ++ u) = some (.dataEntryURL f v u) := by
  show (if 3 ≤ (v ++ u).length then
      some (Box.dataEntryURL f ((v ++ u).take 3)
        (dropTrailingZeros ((v ++ u).drop 3)))
    else none) = some (Box.dataEntryURL f v u)
  rw [List.take_left' hv, List.drop_left' hv, hu,
    if_pos (by simp [hv] : 3 ≤ (v ++ u).length)]

/-! ### decodeBody reductions for each recognized kind -/

theorem decodeBody_sig (recur : List Nat → Option (List Box × List String)) :
    decodeBody recur sigId sigMagic = (.signature, []) := rfl

theorem decodeBody_jp2c (recur : List Nat → Option (List Box × List String))
    (p : List Nat) : decodeBody recur jp2cId p = (.codestream p, []) := rfl

theorem decodeBody_xml (recur : List Nat → Option (List Box × List String))
    (p : List Nat) : decodeBody recur xmlId p = (.xmlBox p, []) := rfl

theorem decodeBody_lbl (recur : List Nat → Option (List Box × List String))
    (p : List Nat) : decodeBody recur lblId p = (.labelBox p, []) := rfl

theorem decodeBody_free (recur : List Nat → Option (List Box × List String))
    (p : List Nat) : decodeBody recur freeId p = (.freeBox p, []) := rfl

theorem decodeBody_ftyp (recur : List Nat → Option (List Box × List String))
    (brand : List Nat) (minor : Nat) (cl : List (List Nat))
    (hb : brand.length = 4) (hm : minor < 4294967296)
    (hcl : ∀ c ∈ cl, c.length = 4) :
    decodeBody recur ftypId (brand ++ toBytesBE 4 minor ++ flat cl)
      = (.fileType brand minor cl, []) := by
  unfold decodeBody
  rw [show boxKindOf ftypId = BoxKind.ftypK from rfl,
    parseFtyp_roundtrip brand minor cl hb hm hcl]

theorem decodeBody_nlst (recur : List Nat → Option (List Box × List String))
    (as : List Nat) (h : ∀ a ∈ as, a < 4294967296) :
    decodeBody recur nlstId (flat (as.map (toBytesBE 4)))
      = (.numberList as, []) := by
  unfold decodeBody
  rw [show boxKindOf nlstId = BoxKind.nlstK from rfl, parseNlst_roundtrip as h]

theorem decodeBody_flst (recur : List Nat → Option (List Box × List String))
    (o l r : List Int)
    (h1 : o.length = l.length) (h2 : l.length = r.length)
    (hn : o.length < 65536)
    (ho : ∀ x ∈ o, 0 ≤ x ∧ x < 18446744073709551616)
    (hl : ∀ x ∈ l, 0 ≤ x ∧ x < 4294967296)
    (hr : ∀ x ∈ r, 0 ≤ x ∧ x < 65536) :
    decodeBody recur flstId (toBytesBE 2 o.length ++ flstEntries o l r)
      = (.fragmentList o l r, []) := by
  unfold decodeBody
  rw [show boxKindOf flstId = BoxKind.flstK from rfl,
    parseFlst_roundtrip o l r h1 h2 hn ho hl hr]

theorem decodeBody_url (recur : List Nat → Option (List Box × List String))
    (f : Nat) (v u : List Nat) (hv : v.length = 3)
    (hu : dropTrailingZeros u = u) :
    decodeBody recur urlId (f :: v ++ u) = (.dataEntryURL f v u, []) := by
  unfold decodeBody
  rw [show boxKindOf urlId = BoxKind.urlK from rfl, parseUrl_roundtrip f v u hv hu]

theorem decodeBody_jp2h (recur : List Nat → Option (List Box × List String))
    (p : List Nat) (cs : List Box) (ws : List String)
    (hrec : recur p = some (cs, ws)) :
    decodeBody recur jp2hId p = (.jp2Header cs, ws) := by
  unfold decodeBody
  rw [show boxKindOf jp2hId = BoxKind.jp2hK from rfl, hrec]

theorem decodeBody_asoc (recur : List Nat → Option (List Box × List String))
    (p : List Nat) (cs : List Box) (ws : List String)
    (hrec : recur p = some (cs, ws)) :
    decodeBody recur asocId p = (.association cs, ws) := by
  unfold decodeBody
  rw [show boxKindOf asocId = BoxKind.asocK from rfl, hrec]

theorem decodeBody_ftbl (recur : List Nat → Option (List Box × List String))
    (p : List Nat) (cs : List Box) (ws : List String)
    (hrec : recur p = some (cs, ws)) :
    decodeBody recur ftblId p = (.fragmentTable cs, ws) := by
  unfold decodeBody
  rw [show boxKindOf ftblId = BoxKind.ftblK from rfl, hrec]

theorem decodeBody_dtbl (recur : List Nat → Option (List Box × List String))
    (cs : List Box) (ws : List String) (hn : cs.length < 65536)
    (hrec : recur (serializeBoxes cs) = some (cs, ws)) :
    decodeBody recur dtblId (toBytesBE 2 cs.length ++ serializeBoxes cs)
      = (.dataReference cs, ws) := by
  have e2 : (toBytesBE 2 cs.length).length = 2 := length_toBytesBE _ _
  have ht : (toBytesBE 2 cs.length ++ serializeBoxes cs).take 2
      = toBytesBE 2 cs.length := List.take_left' e2
  have hd : (toBytesBE 2 cs.length ++ serializeBoxes cs).drop 2
      = serializeBoxes cs := List.drop_left' e2
  unfold decodeBody
  rw [show boxKindOf dtblId = BoxKind.dtblK from rfl, ht, hd, hrec,
    fromBytesBE_toBytesBE_of_lt (by omega : cs.length < 256 ^ 2),
    if_pos (by simp [e2] : 2 ≤ (toBytesBE 2 cs.length ++ serializeBoxes cs).length)]
  simp

/-! ### The round-trip theorem: parse after serialize restores every box -/

mutual

theorem parse_serialize_box (b : Box) (rest : List Nat) (fuel : Nat)
    (hwf : wfBox b = true)
    (hfuel : (serializeBox b).length + rest.length ≤ fuel) :
    parseOneBox (parseBoxSeq fuel) (serializeBox b ++ rest)
      = some (b, [], rest) := by
  cases b with
  | signature =>
      rw [show serializeBox Box.signature = mkBox sigId sigMagic from rfl,
        parseOneBox_mkBox (parseBoxSeq fuel) sigId sigMagic rest rfl (by decide),
        decodeBody_sig]
  | fileType brand minor cl =>
      simp only [wfBox, bytesOk, Bool.and_eq_true, beq_iff_eq,
        decide_eq_true_eq, List.all_eq_true] at hwf
      obtain ⟨⟨⟨⟨hb, hbb⟩, hm⟩, hcl⟩, hsz⟩ := hwf
      have hcl4 : ∀ c ∈ cl, c.length = 4 := by
        intro c hc
        have := hcl c hc
        simp only [Bool.and_eq_true, beq_iff_eq] at this
        exact this.1
      have hlen : (brand ++ toBytesBE 4 minor ++ flat cl).length + 8
          < 4294967296 := by
        rw [show serializeBox (Box.fileType brand minor cl)
            = mkBox ftypId (brand ++ toBytesBE 4 minor ++ flat cl) from rfl,
          mkBox_length, show ftypId.length = 4 from rfl] at hsz
        omega
      rw [show serializeBox (Box.fileType brand minor cl)
          = mkBox ftypId (brand ++ toBytesBE 4 minor ++ flat cl) from rfl,
        parseOneBox_mkBox (parseBoxSeq fuel) ftypId
          (brand ++ toBytesBE 4 minor ++ flat cl) rest rfl hlen,
        decodeBody_ftyp _ brand minor cl hb hm hcl4]
  | jp2Header cs =>
      simp only [wfBox, Bool.and_eq_true, decide_eq_true_eq] at hwf
      obtain ⟨hcs, hsz⟩ := hwf
      have hlen : (serializeBoxes cs).length + 8 < 4294967296 := by
        rw [show serializeBox (Box.jp2Header cs)
            = mkBox jp2hId (serializeBoxes cs) from rfl,
          mkBox_length, show jp2hId.length = 4 from rfl] at hsz
        omega
      have hfc : (serializeBoxes cs).length < fuel := by
        have h4 : (serializeBox (Box.jp2Header cs)).length
            = (serializeBoxes cs).length + 8 := by
          rw [show serializeBox (Box.jp2Header cs)
              = mkBox jp2hId (serializeBoxes cs) from rfl,
            mkBox_length, show jp2hId.length = 4 from rfl]
          omega
        omega
      have hrec := parse_serialize_boxes cs fuel hcs hfc
      rw [show serializeBox (Box.jp2Header cs)
          = mkBox jp2hId (serializeBoxes cs) from rfl,
        parseOneBox_mkBox (parseBoxSeq fuel) jp2hId (serializeBoxes cs) rest
          rfl hlen,
        decodeBody_jp2h _ _ cs [] hrec]
  | codestream p =>
      simp only [wfBox, bytesOk, Bool.and_eq_true, decide_eq_true_eq,
        List.all_eq_true] at hwf
      have hlen : p.length + 8 < 4294967296 := by
        have hsz := hwf.2
        rw [show serializeBox (Box.codestream p) = mkBox jp2cId p from rfl,
          mkBox_length, show jp2cId.length = 4 from rfl] at hsz
        omega
      rw [show serializeBox (Box.codestream p) = mkBox jp2cId p from rfl,
        parseOneBox_mkBox (parseBoxSeq fuel) jp2cId p rest rfl hlen,
        decodeBody_jp2c]
  | xmlBox x =>
      simp only [wfBox, bytesOk, Bool.and_eq_true, decide_eq_true_eq,
        List.all_eq_true] at hwf
      have hlen : x.length + 8 < 4294967296 := by
        have hsz := hwf.2
        rw [show serializeBox (Box.xmlBox x) = mkBox xmlId x from rfl,
          mkBox_length, show xmlId.length = 4 from rfl] at hsz
        omega
      rw [show serializeBox (Box.xmlBox x) = mkBox xmlId x from rfl,
        parseOneBox_mkBox (parseBoxSeq fuel) xmlId x rest rfl hlen,
        decodeBody_xml]
  | labelBox l =>
      simp only [wfBox, bytesOk, Bool.and_eq_true, decide_eq_true_eq,
        List.all_eq_true] at hwf
      have hlen : l.length + 8 < 4294967296 := by
        have hsz := hwf.2
        rw [show serializeBox (Box.labelBox l) = mkBox lblId l from rfl,
          mkBox_length, show lblId.length = 4 from rfl] at hsz
        omega
      rw [show serializeBox (Box.labelBox l) = mkBox lblId l from rfl,
        parseOneBox_mkBox (parseBoxSeq fuel) lblId l rest rfl hlen,
        decodeBody_lbl]
  | numberList as =>
      simp only [wfBox, Bool.and_eq_true, decide_eq_true_eq,
        List.all_eq_true] at hwf
      obtain ⟨ha, hsz⟩ := hwf
      have hlen : (flat (as.map (toBytesBE 4))).length + 8 < 4294967296 := by
        rw [show serializeBox (Box.numberList as)
            = mkBox nlstId (flat (as.map (toBytesBE 4))) from rfl,
          mkBox_length, show nlstId.length = 4 from rfl] at hsz
        omega
      rw [show serializeBox (Box.numberList as)
          = mkBox nlstId (flat (as.map (toBytesBE 4))) from rfl,
        parseOneBox_mkBox (parseBoxSeq fuel) nlstId
          (flat (as.map (toBytesBE 4))) rest rfl hlen,
        decodeBody_nlst _ as ha]
  | association cs =>
      simp only [wfBox, Bool.and_eq_true, decide_eq_true_eq] at hwf
      obtain ⟨hcs, hsz⟩ := hwf
      have hlen : (serializeBoxes cs).length + 8 < 4294967296 := by
        rw [show serializeBox (Box.association cs)
            = mkBox asocId (serializeBoxes cs) from rfl,
          mkBox_length, show asocId.length = 4 from rfl] at hsz
        omega
      have hfc : (serializeBoxes cs).length < fuel := by
        have h4 : (serializeBox (Box.association cs)).length
            = (serializeBoxes cs).length + 8 := by
          rw [show serializeBox (Box.association cs)
              = mkBox asocId (serializeBoxes cs) from rfl,
            mkBox_length, show asocId.length = 4 from rfl]
          omega
        omega
      have hrec := parse_serialize_boxes cs fuel hcs hfc
      rw [show serializeBox (Box.association cs)
          = mkBox asocId (serializeBoxes cs) from rfl,
        parseOneBox_mkBox (parseBoxSeq fuel) asocId (serializeBoxes cs) rest
          rfl hlen,
        decodeBody_asoc _ _ cs [] hrec]
  | fragmentList o l r =>
      simp only [wfBox, flstValid, Bool.and_eq_true, beq_iff_eq, bne_iff_ne,
        ne_eq, decide_eq_true_eq, List.all_eq_true] at hwf
      obtain ⟨⟨⟨⟨⟨⟨⟨⟨⟨h1, h2⟩, h0⟩, hop⟩, hlp⟩, hn⟩, hob⟩, hlb⟩, hrb⟩, hsz⟩ := hwf
      have ho : ∀ x ∈ o, 0 ≤ x ∧ x < 18446744073709551616 := by
        intro x hx
        exact ⟨le_of_lt (hop x hx), hob x hx⟩
      have hl : ∀ x ∈ l, 0 ≤ x ∧ x < 4294967296 := by
        intro x hx
        exact ⟨le_of_lt (hlp x hx), hlb x hx⟩
      have hr : ∀ x ∈ r, 0 ≤ x ∧ x < 65536 := by
        intro x hx
        have := hrb x hx
        simp only [Bool.and_eq_true, decide_eq_true_eq] at this
        exact this
      have hlen : (toBytesBE 2 o.length ++ flstEntries o l r).length + 8
          < 4294967296 := by
        rw [show serializeBox (Box.fragmentList o l r)
            = mkBox flstId (toBytesBE 2 o.length ++ flstEntries o l r) from rfl,
          mkBox_length, show flstId.length = 4 from rfl] at hsz
        omega
      rw [show serializeBox (Box.fragmentList o l r)
          = mkBox flstId (toBytesBE 2 o.length ++ flstEntries o l r) from rfl,
        parseOneBox_mkBox (parseBoxSeq fuel) flstId
          (toBytesBE 2 o.length ++ flstEntries o l r) rest rfl hlen,
        decodeBody_flst _ o l r h1 h2 hn ho hl hr]
  | fragmentTable cs =>
      simp only [wfBox, Bool.and_eq_true, decide_eq_true_eq] at hwf
      obtain ⟨hcs, hsz⟩ := hwf
      have hlen : (serializeBoxes cs).length + 8 < 4294967296 := by
        rw [show serializeBox (Box.fragmentTable cs)
            = mkBox ftblId (serializeBoxes cs) from rfl,
          mkBox_length, show ftblId.length = 4 from rfl] at hsz
        omega
      have hfc : (serializeBoxes cs).length < fuel := by
        have h4 : (serializeBox (Box.fragmentTable cs)).length
            = (serializeBoxes cs).length + 8 := by
          rw [show serializeBox (Box.fragmentTable cs)
              = mkBox ftblId (serializeBoxes cs) from rfl,
            mkBox_length, show ftblId.length = 4 from rfl]
          omega
        omega
      have hrec := parse_serialize_boxes cs fuel hcs hfc
      rw [show serializeBox (Box.fragmentTable cs)
          = mkBox ftblId (serializeBoxes cs) from rfl,
        parseOneBox_mkBox (parseBoxSeq fuel) ftblId (serializeBoxes cs) rest
          rfl hlen,
        decodeBody_ftbl _ _ cs [] hrec]
  | dataEntryURL f v u =>
      simp only [wfBox, bytesOk, Bool.and_eq_true, beq_iff_eq,
        decide_eq_true_eq, List.all_eq_true] at hwf
      obtain ⟨⟨⟨⟨⟨hf, hv⟩, hvb⟩, hub⟩, hz⟩, hsz⟩ := hwf
      have hlen : (f :: v ++ u).length + 8 < 4294967296 := by
        rw [show serializeBox (Box.dataEntryURL f v u)
            = mkBox urlId (f :: v ++ u) from rfl,
          mkBox_length, show urlId.length = 4 from rfl] at hsz
        omega
      rw [show serializeBox (Box.dataEntryURL f v u)
          = mkBox urlId (f :: v ++ u) from rfl,
        parseOneBox_mkBox (parseBoxSeq fuel) urlId (f :: v ++ u) rest rfl hlen,
        decodeBody_url _ f v u hv hz]
  | dataReference cs =>
      simp only [wfBox, Bool.and_eq_true, decide_eq_true_eq] at hwf
      obtain ⟨⟨hn, hcs⟩, hsz⟩ := hwf
      have hlen : (toBytesBE 2 cs.length ++ serializeBoxes cs).length + 8
          < 4294967296 := by
        rw [show serializeBox (Box.dataReference cs)
            = mkBox dtblId (toBytesBE 2 cs.length ++ serializeBoxes cs)
            from rfl,
          mkBox_length, show dtblId.length = 4 from rfl] at hsz
        omega
      have hfc : (serializeBoxes cs).length < fuel := by
        have h4 : (serializeBox (Box.dataReference cs)).length
            = (toBytesBE 2 cs.length ++ serializeBoxes cs).length + 8 := by
          rw [show serializeBox (Box.dataReference cs)
              = mkBox dtblId (toBytesBE 2 cs.length ++ serializeBoxes cs)
              from rfl,
            mkBox_length, show dtblId.length = 4 from rfl]
          omega
        have h5 : (toBytesBE 2 cs.length ++ serializeBoxes cs).length
            = (serializeBoxes cs).length + 2 := by
          simp [length_toBytesBE]
          omega
        omega
      have hrec := parse_serialize_boxes cs fuel hcs hfc
      rw [show serializeBox (Box.dataReference cs)
          = mkBox dtblId (toBytesBE 2 cs.length ++ serializeBoxes cs) from rfl,
        parseOneBox_mkBox (parseBoxSeq fuel) dtblId
          (toBytesBE 2 cs.length ++ serializeBoxes cs) rest rfl hlen,
        decodeBody_dtbl _ cs [] hn hrec]
  | freeBox p =>
      simp only [wfBox, bytesOk, Bool.and_eq_true, decide_eq_true_eq,
        List.all_eq_true] at hwf
      have hlen : p.length + 8 < 4294967296 := by
        have hsz := hwf.2
        rw [show serializeBox (Box.freeBox p) = mkBox freeId p from rfl,
          mkBox_length, show freeId.length = 4 from rfl] at hsz
        omega
      rw [show serializeBox (Box.freeBox p) = mkBox freeId p from rfl,
        parseOneBox_mkBox (parseBoxSeq fuel) freeId p rest rfl hlen,
        decodeBody_free]
  | unknownBox id cs p =>
      simp [wfBox] at hwf

theorem parse_serialize_boxes (bs : List Box) (fuel : Nat)
    (hwf : wfList bs = true)
    (hfuel : (serializeBoxes bs).length < fuel) :
    parseBoxSeq fuel (serializeBoxes bs) = some (bs, []) := by
  cases bs with
  | nil =>
      cases fuel with
      | zero => simp [serializeBoxes] at hfuel
      | succ f => simp [serializeBoxes, parseBoxSeq]
  | cons b bs =>
      cases fuel with
      | zero => simp at hfuel
      | succ f =>
          simp only [wfList, Bool.and_eq_true] at hwf
          have hlen : (serializeBoxes (b :: bs)).length
              = (serializeBox b).length + (serializeBoxes bs).length := by
            simp [serializeBoxes]
          rw [hlen] at hfuel
          have hone := parse_serialize_box b (serializeBoxes bs) f hwf.1
            (by omega)
          have hb4 := length_serializeBox_pos b
          have hrest := parse_serialize_boxes bs f hwf.2 (by omega)
          have hne : serializeBox b ++ serializeBoxes bs ≠ [] := by
            intro hcon
            have hl := congrArg List.length hcon
            rw [List.length_append] at hl
            simp only [List.length_nil] at hl
            omega
          rw [show serializeBoxes (b :: bs)
              = serializeBox b ++ serializeBoxes bs from rfl,
            parseBoxSeq, if_neg hne, hone]
          simp [hrest]

end

/-! ### Characterizations of the wrap checks -/

theorem wrap_ok_eq (boxes : List Box) (data : List Nat)
    (h : wrap boxes = .ok data) : data = serializeBoxes boxes := by
  unfold wrap at h
  split at h
  · exact absurd h (by simp)
  · split at h
    · exact absurd h (by simp)
    · split at h
      · exact absurd h (by simp)
      · split at h
        · exact absurd h (by simp)
        · injection h with h
          exact h.symm

mutual

theorem lblOkBox_iff (b : Box) :
    lblOkBox b = true ↔
      ∀ p ∈ b :: descBox b,
        isAsoc p = true ∨ ∀ c ∈ childBoxes p, isLbl c = false := by
  cases b with
  | association cs =>
      rw [show lblOkBox (Box.association cs) = lblOkList cs from rfl,
        show descBox (Box.association cs) = descList cs from rfl,
        lblOkList_iff cs]
      constructor
      · intro h p hp
        rcases List.mem_cons.mp hp with rfl | hp
        · exact Or.inl rfl
        · exact h p hp
      · intro h p hp
        exact h p (List.mem_cons_of_mem _ hp)
  | jp2Header cs =>
      rw [show lblOkBox (Box.jp2Header cs)
          = (noLblChild cs && lblOkList cs) from rfl,
        Bool.and_eq_true, lblOkList_iff cs,
        show descBox (Box.jp2Header cs) = descList cs from rfl]
      constructor
      · rintro ⟨h1, h2⟩ p hp
        rcases List.mem_cons.mp hp with rfl | hp
        · refine Or.inr fun c hc => ?_
          simp only [noLblChild, List.all_eq_true, Bool.not_eq_true'] at h1
          exact h1 c hc
        · exact h2 p hp
      · intro h
        refine ⟨?_, fun p hp => h p (List.mem_cons_of_mem _ hp)⟩
        rcases h (Box.jp2Header cs) (List.mem_cons_self _ _) with habs | hc
        · exact absurd habs (by simp [isAsoc])
        · simp only [noLblChild, List.all_eq_true, Bool.not_eq_true']
          exact fun c hc' => hc c hc'
  | fragmentTable cs =>
      rw [show lblOkBox (Box.fragmentTable cs)
          = (noLblChild cs && lblOkList cs) from rfl,
        Bool.and_eq_true, lblOkList_iff cs,
        show descBox (Box.fragmentTable cs) = descList cs from rfl]
      constructor
      · rintro ⟨h1, h2⟩ p hp
        rcases List.mem_cons.mp hp with rfl | hp
        · refine Or.inr fun c hc => ?_
          simp only [noLblChild, List.all_eq_true, Bool.not_eq_true'] at h1
          exact h1 c hc
        · exact h2 p hp
      · intro h
        refine ⟨?_, fun p hp => h p (List.mem_cons_of_mem _ hp)⟩
        rcases h (Box.fragmentTable cs) (List.mem_cons_self _ _) with habs | hc
        · exact absurd habs (by simp [isAsoc])
        · simp only [noLblChild, List.all_eq_true, Bool.not_eq_true']
          exact fun c hc' => hc c hc'
  | dataReference cs =>
      rw [show lblOkBox (Box.dataReference cs)
          = (noLblChild cs && lblOkList cs) from rfl,
        Bool.and_eq_true, lblOkList_iff cs,
        show descBox (Box.dataReference cs) = descList cs from rfl]
      constructor
      · rintro ⟨h1, h2⟩ p hp
        rcases List.mem_cons.mp hp with rfl | hp
        · refine Or.inr fun c hc => ?_
          simp only [noLblChild, List.all_eq_true, Bool.not_eq_true'] at h1
          exact h1 c hc
        · exact h2 p hp
      · intro h
        refine ⟨?_, fun p hp => h p (List.mem_cons_of_mem _ hp)⟩
        rcases h (Box.dataReference cs) (List.mem_cons_self _ _) with habs | hc
        · exact absurd habs (by simp [isAsoc])
        · simp only [noLblChild, List.all_eq_true, Bool.not_eq_true']
          exact fun c hc' => hc c hc'
  | unknownBox id cs p =>
      rw [show lblOkBox (Box.unknownBox id cs p)
          = (noLblChild cs && lblOkList cs) from rfl,
        Bool.and_eq_true, lblOkList_iff cs,
        show descBox (Box.unknownBox id cs p) = descList cs from rfl]
      constructor
      · rintro ⟨h1, h2⟩ q hq
        rcases List.mem_cons.mp hq with rfl | hq
        · refine Or.inr fun c hc => ?_
          simp only [noLblChild, List.all_eq_true, Bool.not_eq_true'] at h1
          exact h1 c hc
        · exact h2 q hq
      · intro h
        refine ⟨?_, fun q hq => h q (List.mem_cons_of_mem _ hq)⟩
        rcases h (Box.unknownBox id cs p) (List.mem_cons_self _ _) with habs | hc
        · exact absurd habs (by simp [isAsoc])
        · simp only [noLblChild, List.all_eq_true, Bool.not_eq_true']
          exact fun c hc' => hc c hc'
  | signature => simp [lblOkBox, descBox, childBoxes]
  | fileType brand minor cl => simp [lblOkBox, descBox, childBoxes]
  | codestream p => simp [lblOkBox, descBox, childBoxes]
  | xmlBox x => simp [lblOkBox, descBox, childBoxes]
  | labelBox l => simp [lblOkBox, descBox, childBoxes]
  | numberList as => simp [lblOkBox, descBox, childBoxes]
  | fragmentList o l r => simp [lblOkBox, descBox, childBoxes]
  | dataEntryURL f v u => simp [lblOkBox, descBox, childBoxes]
  | freeBox p => simp [lblOkBox, descBox, childBoxes]

theorem lblOkList_iff (bs : List Box) :
    lblOkList bs = true ↔
      ∀ p ∈ descList bs,
        isAsoc p = true ∨ ∀ c ∈ childBoxes p, isLbl c = false := by
  cases bs with
  | nil => simp [lblOkList, descList]
  | cons b bs =>
      rw [show lblOkList (b :: bs) = (lblOkBox b && lblOkList bs) from rfl,
        Bool.and_eq_true, lblOkBox_iff b, lblOkList_iff bs,
        show descList (b :: bs) = b :: (descBox b ++ descList bs) from rfl]
      constructor
      · rintro ⟨h1, h2⟩ p hp
        rcases List.mem_cons.mp hp with rfl | hp
        · exact h1 p (List.mem_cons_self _ _)
        · rcases List.mem_append.mp hp with hp | hp
          · exact h1 p (List.mem_cons_of_mem _ hp)
          · exact h2 p hp
      · intro h
        refine ⟨fun p hp => ?_, fun p hp =>
          h p (List.mem_cons_of_mem _ (List.mem_append_right _ hp))⟩
        rcases List.mem_cons.mp hp with rfl | hp
        · exact h p (List.mem_cons_self _ _)
        · exact h p (List.mem_cons_of_mem _ (List.mem_append_left _ hp))

end

theorem isFlst_eq_true_iff (b : Box) :
    isFlst b = true ↔ ∃ o l r, b = Box.fragmentList o l r := by
  cases b <;> simp [isFlst]

theorem writeBox_ftbl_single_nonflst (c : Box) (hc : isFlst c = false) :
    writeBox (Box.fragmentTable [c]) = .error .fragmentTableError := by
  unfold writeBox
  rw [show validBox (Box.fragmentTable [c])
      = (if isFlst c = true then validBox c
         else Except.error WriteError.fragmentTableError) from rfl,
    if_neg (by simp [hc])]

/-- C2: writing a Fragment List box succeeds exactly when its three
parallel arrays have equal cardinality of at least 1, every offset is
positive and every length is positive; otherwise the write fails with a
structural Fragment List error and the data is not silently corrected. -/
theorem write_fragmentList_validation (o l r : List Int) :
    (writeBox (Box.fragmentList o l r)
        = .ok (serializeBox (Box.fragmentList o l r)) ↔
      o.length = l.length ∧ l.length = r.length ∧ 1 ≤ o.length ∧
        (∀ x ∈ o, 0 < x) ∧ (∀ x ∈ l, 0 < x)) ∧
    (writeBox (Box.fragmentList o l r) = .error .fragmentListError ↔
      ¬(o.length = l.length ∧ l.length = r.length ∧ 1 ≤ o.length ∧
        (∀ x ∈ o, 0 < x) ∧ (∀ x ∈ l, 0 < x))) := by
  have hv : flstValid o l r = true ↔
      (o.length = l.length ∧ l.length = r.length ∧ 1 ≤ o.length ∧
        (∀ x ∈ o, 0 < x) ∧ (∀ x ∈ l, 0 < x)) := by
    simp only [flstValid, Bool.and_eq_true, beq_iff_eq, bne_iff_ne, ne_eq,
      List.all_eq_true, decide_eq_true_eq]
    constructor
    · rintro ⟨⟨⟨⟨h1, h2⟩, h3⟩, h4⟩, h5⟩
      exact ⟨h1, h2, by omega, h4, h5⟩
    · rintro ⟨h1, h2, h3, h4, h5⟩
      exact ⟨⟨⟨⟨h1, h2⟩, by omega⟩, h4⟩, h5⟩
  have hunf : writeBox (Box.fragmentList o l r)
      = (if flstValid o l r = true
         then Except.ok (serializeBox (Box.fragmentList o l r))
         else Except.error WriteError.fragmentListError) := by
    by_cases hf : flstValid o l r = true
    · rw [if_pos hf]
      unfold writeBox
      rw [show validBox (Box.fragmentList o l r)
          = (if flstValid o l r = true then Except.ok ()
             else Except.error WriteError.fragmentListError) from rfl,
        if_pos hf]
    · rw [if_neg hf]
      unfold writeBox
      rw [show validBox (Box.fragmentList o l r)
          = (if flstValid o l r = true then Except.ok ()
             else Except.error WriteError.fragmentListError) from rfl,
        if_neg hf]
  rw [hunf]
  by_cases hf : flstValid o l r = true
  · rw [if_pos hf]
    refine ⟨⟨fun _ => hv.mp hf, fun _ => rfl⟩, ?_, ?_⟩
    · intro hcon
      exact absurd hcon (by simp)
    · intro hcon
      exact absurd (hv.mp hf) hcon
  · rw [if_neg hf]
    refine ⟨⟨fun hcon => absurd hcon (by simp),
      fun hp => absurd (hv.mpr hp) hf⟩,
      fun _ => fun hp => hf (hv.mpr hp), fun _ => rfl⟩

/-- C3: writing a Fragment Table box fails with a structural Fragment
Table error when it has zero children, a single non-Fragment-List child,
or more than one child; a successful write forces exactly one child that
is a Fragment List box. -/
theorem write_fragmentTable_validation (cs : List Box) :
    (cs = [] → writeBox (Box.fragmentTable cs) = .error .fragmentTableError) ∧
    (∀ b, cs = [b] → isFlst b = false →
      writeBox (Box.fragmentTable cs) = .error .fragmentTableError) ∧
    (2 ≤ cs.length →
      writeBox (Box.fragmentTable cs) = .error .fragmentTableError) ∧
    (∀ out, writeBox (Box.fragmentTable cs) = .ok out →
      ∃ o l r, cs = [Box.fragmentList o l r]) := by
  refine ⟨?_, ?_, ?_, ?_⟩
  · rintro rfl
    rfl
  · rintro b rfl hb
    exact writeBox_ftbl_single_nonflst b hb
  · intro h2
    cases cs with
    | nil => simp at h2
    | cons c1 cs' =>
        cases cs' with
        | nil => simp at h2
        | cons c2 rest => rfl
  · intro out hout
    cases cs with
    | nil =>
        rw [show writeBox (Box.fragmentTable ([] : List Box))
            = Except.error WriteError.fragmentTableError from rfl] at hout
        exact absurd hout (by simp)
    | cons c1 cs' =>
        cases cs' with
        | cons c2 rest =>
            rw [show writeBox (Box.fragmentTable (c1 :: c2 :: rest))
                = Except.error WriteError.fragmentTableError from rfl] at hout
            exact absurd hout (by simp)
        | nil =>
            by_cases hc : isFlst c1 = true
            · obtain ⟨o, l, r, rfl⟩ := (isFlst_eq_true_iff c1).mp hc
              exact ⟨o, l, r, rfl⟩
            · have hc' : isFlst c1 = false := by simpa using hc
              rw [writeBox_ftbl_single_nonflst c1 hc'] at hout
              exact absurd hout (by simp)

/-- C4: the wrap operation fails with the Data Reference placement error
precisely when a Data Reference box occurs more than once at top level or
occurs nested inside some superbox; in particular a single top-level Data
Reference box passes this check. -/
theorem wrap_dataReference_rule (boxes : List Box) :
    wrap boxes = .error .dataReferenceError ↔
      1 < boxes.countP isDtbl ∨
        ∃ b ∈ boxes, ∃ d ∈ descBox b, isDtbl d = true := by
  have hbool : (1 < boxes.countP isDtbl
        || boxes.any fun b => (descBox b).any isDtbl) = true ↔
      (1 < boxes.countP isDtbl ∨
        ∃ b ∈ boxes, ∃ d ∈ descBox b, isDtbl d = true) := by
    simp [List.any_eq_true]
  unfold wrap
  by_cases hc : (1 < boxes.countP isDtbl
      || boxes.any fun b => (descBox b).any isDtbl) = true
  · rw [if_pos hc]
    exact ⟨fun _ => hbool.mp hc, fun _ => rfl⟩
  · rw [if_neg hc]
    constructor
    · intro h
      exfalso
      split at h
      · exact absurd h (by simp)
      · split at h
        · exact absurd h (by simp)
        · split at h
          · exact absurd h (by simp)
          · exact absurd h (by simp)
    · intro hr
      exact absurd (hbool.mpr hr) hc

/-- C5: when the Data Reference rule passes, the wrap operation fails
with the Label placement error precisely when some Label box sits at top
level or is an immediate child of a non-Association box anywhere in the
forest; a Label box directly inside an Association box is accepted. -/
theorem wrap_label_rule (boxes : List Box)
    (hdr : ¬(1 < boxes.countP isDtbl ∨
      ∃ b ∈ boxes, ∃ d ∈ descBox b, isDtbl d = true)) :
    wrap boxes = .error .labelError ↔
      ((∃ b ∈ boxes, isLbl b = true) ∨
        ∃ p ∈ descList boxes, isAsoc p = false ∧
          ∃ c ∈ childBoxes p, isLbl c = true) := by
  have hbool1 : (1 < boxes.countP isDtbl
      || boxes.any fun b => (descBox b).any isDtbl) = false := by
    rw [Bool.eq_false_iff]
    intro hc
    apply hdr
    revert hc
    simp [List.any_eq_true]
  have hlbl : (noLblChild boxes && lblOkList boxes) = true ↔
      ¬((∃ b ∈ boxes, isLbl b = true) ∨
        ∃ p ∈ descList boxes, isAsoc p = false ∧
          ∃ c ∈ childBoxes p, isLbl c = true) := by
    rw [Bool.and_eq_true, lblOkList_iff]
    constructor
    · rintro ⟨h1, h2⟩ hcon
      rcases hcon with ⟨b, hb, hlb⟩ | ⟨p, hp, hpa, c, hc, hcl⟩
      · simp only [noLblChild, List.all_eq_true, Bool.not_eq_true'] at h1
        rw [h1 b hb] at hlb
        exact absurd hlb (by simp)
      · rcases h2 p hp with ha | hno
        · rw [ha] at hpa
          exact absurd hpa (by simp)
        · rw [hno c hc] at hcl
          exact absurd hcl (by simp)
    · intro h
      push_neg at h
      obtain ⟨h1, h2⟩ := h
      constructor
      · simp only [noLblChild, List.all_eq_true, Bool.not_eq_true']
        intro b hb
        simpa using h1 b hb
      · intro p hp
        by_cases ha : isAsoc p = true
        · exact Or.inl ha
        · refine Or.inr fun c hc => ?_
          have hpa : isAsoc p = false := by simpa using ha
          simpa using h2 p hp hpa c hc
  unfold wrap
  rw [hbool1, if_neg (by simp)]
  by_cases hA : (noLblChild boxes && lblOkList boxes) = true
  · rw [if_neg (by simp [hA])]
    constructor
    · intro h
      exfalso
      split at h
      · exact absurd h (by simp)
      · split at h
        · exact absurd h (by simp)
        · exact absurd h (by simp)
    · intro hr
      exact absurd hr (hlbl.mp hA)
  · have hA' : (noLblChild boxes && lblOkList boxes) = false := by
      simpa using hA
    rw [if_pos (by simp [hA'])]
    constructor
    · intro _
      by_contra hcon
      exact hA (hlbl.mpr hcon)
    · intro _
      rfl

/-- C6: when the placement rules pass, a File Type box present and
JPX-only boxes present, the wrap operation fails with the compatibility
error when the brand is JPX-family but the compatibility list omits the
jp2 code, fails with the distinct brand error when the brand is not
JPX-family, and can never succeed while the jp2 code is missing. -/
theorem wrap_brand_compatibility_rules (boxes : List Box) (brand : List Nat)
    (cl : List (List Nat))
    (hftyp : findFtyp boxes = some (brand, cl))
    (hjpx : jpxPresent boxes = true)
    (hr1 : (1 < boxes.countP isDtbl
      || boxes.any fun b => (descBox b).any isDtbl) = false)
    (hr2 : (noLblChild boxes && lblOkList boxes) = true) :
    (brandIsJpx brand = true → cl.contains jp2Brand = false →
      wrap boxes = .error .compatibilityError) ∧
    (brandIsJpx brand = false → wrap boxes = .error .brandError) ∧
    (cl.contains jp2Brand = false → ∀ out, wrap boxes ≠ .ok out) ∧
    (WrapError.compatibilityError ≠ WrapError.brandError) := by
  have hw : wrap boxes
      = (if (brandIsJpx brand && !cl.contains jp2Brand) = true
         then Except.error WrapError.compatibilityError
         else if (jpxPresent boxes && !brandIsJpx brand) = true
         then Except.error WrapError.brandError
         else Except.ok (serializeBoxes boxes)) := by
    unfold wrap
    rw [hr1, if_neg (by simp), if_neg (by simp [hr2]), hftyp]
  refine ⟨?_, ?_, ?_, by simp⟩
  · intro hb hcl
    have hclm : jp2Brand ∉ cl := by simpa using hcl
    rw [hw, if_pos (by simp [hb, hclm])]
  · intro hb
    rw [hw, if_neg (by simp [hb]), if_pos (by simp [hjpx, hb])]
  · intro hcl out
    have hclm : jp2Brand ∉ cl := by simpa using hcl
    by_cases hb : brandIsJpx brand = true
    · rw [hw, if_pos (by simp [hb, hclm])]
      simp
    · have hb' : brandIsJpx brand = false := by simpa using hb
      rw [hw, if_neg (by simp [hb']), if_pos (by simp [hjpx, hb'])]
      simp

set_option maxRecDepth 10000 in
/-- C7: parsing the 546-byte conformance-file5 ICC profile yields exactly
the documented header fields — Size 546, CMM type 0, version 2.2.0,
input device profile, RGB, signature acsp, date-time 2001-08-30 13:32:37,
unrecognized platform, the embedded and independently-usable flags, KODA
manufacturer, ROMM model, the reflective glossy positive color
attributes, perceptual intent, JPEG creator — and the illuminant triple
is within 1e-6 of (0.964203, 1.000000, 0.824905) componentwise. -/
theorem icc_file5_header_fields :
    parseIcc file5IccBytes = some (decodeIccHeader file5IccBytes, []) ∧
    (decodeIccHeader file5IccBytes).size = 546 ∧
    (decodeIccHeader file5IccBytes).preferredCmmType = 0 ∧
    (decodeIccHeader file5IccBytes).version = "2.2.0" ∧
    (decodeIccHeader file5IccBytes).deviceClass = "input device profile" ∧
    (decodeIccHeader file5IccBytes).colorSpace = "RGB" ∧
    (decodeIccHeader file5IccBytes).datetime = (2001, 8, 30, 13, 32, 37) ∧
    (decodeIccHeader file5IccBytes).fileSignature = "acsp" ∧
    (decodeIccHeader file5IccBytes).platform = "unrecognized" ∧
    (decodeIccHeader file5IccBytes).flags
      = "embedded, can be used independently" ∧
    (decodeIccHeader file5IccBytes).deviceManufacturer = "KODA" ∧
    (decodeIccHeader file5IccBytes).deviceModel = "ROMM" ∧
    (decodeIccHeader file5IccBytes).deviceAttributes
      = "reflective, glossy, positive media polarity, color media" ∧
    (decodeIccHeader file5IccBytes).renderingIntent = "perceptual" ∧
    (decodeIccHeader file5IccBytes).creator = "JPEG" ∧
    |(decodeIccHeader file5IccBytes).illuminant.1
      - 964203 / 1000000| < 1 / 1000000 ∧
    |(decodeIccHeader file5IccBytes).illuminant.2.1
      - 1000000 / 1000000| < 1 / 1000000 ∧
    |(decodeIccHeader file5IccBytes).illuminant.2.2
      - 824905 / 1000000| < 1 / 1000000 := by
  have hx : (decodeIccHeader file5IccBytes).illuminant.1 = 63190 / 65536 := by
    show s15f16 (readBE file5IccBytes 68 4) = _
    rw [show readBE file5IccBytes 68 4 = 63190 from by decide]
    unfold s15f16
    rw [if_pos (by norm_num)]
    norm_num
  have hy : (decodeIccHeader file5IccBytes).illuminant.2.1 = 1 := by
    show s15f16 (readBE file5IccBytes 72 4) = _
    rw [show readBE file5IccBytes 72 4 = 65536 from by decide]
    unfold s15f16
    rw [if_pos (by norm_num)]
    norm_num
  have hz : (decodeIccHeader file5IccBytes).illuminant.2.2
      = 54061 / 65536 := by
    show s15f16 (readBE file5IccBytes 76 4) = _
    rw [show readBE file5IccBytes 76 4 = 54061 from by decide]
    unfold s15f16
    rw [if_pos (by norm_num)]
    norm_num
  refine ⟨?_, by decide, by decide, by decide, by decide, by decide,
    by decide, by decide, by decide, by decide, by decide, by decide,
    by decide, by decide, by decide, ?_, ?_, ?_⟩
  · unfold parseIcc
    rw [if_neg (by decide), if_pos (by decide)]
  · rw [hx, show (63190 : ℚ) / 65536 - 964203 / 1000000
        = -(61 / 512000000) from by norm_num, abs_neg,
      abs_of_pos (by norm_num)]
    norm_num
  · rw [hy, show (1 : ℚ) - 1000000 / 1000000 = 0 from by norm_num, abs_zero]
    norm_num
  · rw [hz, show (54061 : ℚ) / 65536 - 824905 / 1000000
        = 81 / 204800000 from by norm_num, abs_of_pos (by norm_num)]
    norm_num

/-- C8: an ICC profile at least one header long whose 'acsp' signature
field is corrupted still parses — the parser returns the best-effort
decoded header together with the invalid-signature decode warning instead
of aborting. -/
theorem icc_invalid_signature_warns (bs : List Nat)
    (hlen : 128 ≤ bs.length) (hsig : (bs.drop 36).take 4 ≠ acspCode) :
    parseIcc bs = some (decodeIccHeader bs, [iccSigWarning]) := by
  unfold parseIcc
  rw [if_neg (by omega), if_neg hsig]

set_option maxRecDepth 10000 in
theorem icc_invalid_signature_warns_witness :
    parseIcc corruptIccBytes
      = some (decodeIccHeader corruptIccBytes, [iccSigWarning]) :=
  icc_invalid_signature_warns corruptIccBytes (by decide) (by decide)

theorem parseRreqStd_roundtrip (ml : Nat) (fs ms restb : List Nat)
    (hlen : fs.length = ms.length)
    (hm : ∀ m ∈ ms, m < 256 ^ ml)
    (hf : ∀ f ∈ fs, f < 65536) :
    parseRreqStd ml fs.length (encodeRreqStd ml fs ms ++ restb)
      = some ((fs, ms), restb) := by
  induction fs generalizing ms restb with
  | nil =>
      cases ms with
      | cons m ms => simp at hlen
      | nil => rfl
  | cons f fs ih =>
      cases ms with
      | nil => simp at hlen
      | cons m ms =>
          have e2 : (toBytesBE 2 f).length = 2 := length_toBytesBE _ _
          have eml : (toBytesBE ml m).length = ml := length_toBytesBE _ _
          have henc : encodeRreqStd ml (f :: fs) (m :: ms) ++ restb
              = toBytesBE 2 f ++ (toBytesBE ml m ++
                (encodeRreqStd ml fs ms ++ restb)) := by
            rw [encodeRreqStd]
            simp [List.append_assoc]
          have htake2 : (encodeRreqStd ml (f :: fs) (m :: ms) ++ restb).take 2
              = toBytesBE 2 f := by
            rw [henc, List.take_left' e2]
          have hd2 : ((encodeRreqStd ml (f :: fs) (m :: ms) ++ restb).drop 2).take ml
              = toBytesBE ml m := by
            rw [henc, List.drop_left' e2, List.take_left' eml]
          have hd2ml : (encodeRreqStd ml (f :: fs) (m :: ms) ++ restb).drop (2 + ml)
              = encodeRreqStd ml fs ms ++ restb := by
            have h2ml : (toBytesBE 2 f ++ toBytesBE ml m).length = 2 + ml := by
              simp [e2, eml]
            rw [henc, ← List.append_assoc, List.drop_left' h2ml]
          have hbig : 2 + ml ≤ (encodeRreqStd ml (f :: fs) (m :: ms) ++ restb).length := by
            rw [henc]
            simp only [List.length_append, e2, eml]
            omega
          show parseRreqStd ml (fs.length + 1)
            (encodeRreqStd ml (f :: fs) (m :: ms) ++ restb) = _
          rw [parseRreqStd, if_pos hbig, hd2ml,
            ih ms restb (by simpa using hlen)
              (fun x hx => hm x (List.mem_cons_of_mem _ hx))
              (fun x hx => hf x (List.mem_cons_of_mem _ hx)),
            htake2, hd2,
            fromBytesBE_toBytesBE_of_lt
              (show f < 256 ^ 2 from by
                have := hf f (List.mem_cons_self _ _)
                omega),
            fromBytesBE_toBytesBE_of_lt (hm m (List.mem_cons_self _ _))]

theorem parseRreqVnd_roundtrip (ml : Nat) (us : List (List Nat))
    (ms restb : List Nat)
    (hlen : us.length = ms.length)
    (hm : ∀ m ∈ ms, m < 256 ^ ml)
    (hu : ∀ u ∈ us, u.length = 16) :
    parseRreqVnd ml us.length (encodeRreqVnd ml us ms ++ restb)
      = some ((us, ms), restb) := by
  induction us generalizing ms restb with
  | nil =>
      cases ms with
      | cons m ms => simp at hlen
      | nil => rfl
  | cons u us ih =>
      cases ms with
      | nil => simp at hlen
      | cons m ms =>
          have e16 : u.length = 16 := hu u (List.mem_cons_self _ _)
          have eml : (toBytesBE ml m).length = ml := length_toBytesBE _ _
          have henc : encodeRreqVnd ml (u :: us) (m :: ms) ++ restb
              = u ++ (toBytesBE ml m ++ (encodeRreqVnd ml us ms ++ restb)) := by
            rw [encodeRreqVnd]
            simp [List.append_assoc]
          have htake16 : (encodeRreqVnd ml (u :: us) (m :: ms) ++ restb).take 16
              = u := by
            rw [henc, List.take_left' e16]
          have hd16 : ((encodeRreqVnd ml (u :: us) (m :: ms) ++ restb).drop 16).take ml
              = toBytesBE ml m := by
            rw [henc, List.drop_left' e16, List.take_left' eml]
          have hd16ml : (encodeRreqVnd ml (u :: us) (m :: ms) ++ restb).drop (16 + ml)
              = encodeRreqVnd ml us ms ++ restb := by
            have h16ml : (u ++ toBytesBE ml m).length = 16 + ml := by
              simp [e16, eml]
            rw [henc, ← List.append_assoc, List.drop_left' h16ml]
          have hbig : 16 + ml ≤ (encodeRreqVnd ml (u :: us) (m :: ms) ++ restb).length := by
            rw [henc]
            simp only [List.length_append, e16, eml]
            omega
          show parseRreqVnd ml (us.length + 1)
            (encodeRreqVnd ml (u :: us) (m :: ms) ++ restb) = _
          rw [parseRreqVnd, if_pos hbig, hd16ml,
            ih ms restb (by simpa using hlen)
              (fun x hx => hm x (List.mem_cons_of_mem _ hx))
              (fun x hx => hu x (List.mem_cons_of_mem _ hx)),
            htake16, hd16,
            fromBytesBE_toBytesBE_of_lt (hm m (List.mem_cons_self _ _))]

/-- C9: a Reader Requirements box whose masks are encoded with any
declared byte width of at least one (including the non-default 3-byte
width of real JPX files) parses back to exactly its fields: the parser
reads the declared mask length and decodes the standard flags to the
same ordered tuple that was encoded. -/
theorem rreq_variable_mask_width_roundtrip (ml fu dc : Nat)
    (sfs sms : List Nat) (vfs : List (List Nat)) (vms : List Nat)
    (hml : 1 ≤ ml) (hfu : fu < 256 ^ ml) (hdc : dc < 256 ^ ml)
    (hsl : sfs.length = sms.length) (hsn : sfs.length < 65536)
    (hsf : ∀ f ∈ sfs, f < 65536) (hsm : ∀ m ∈ sms, m < 256 ^ ml)
    (hvl : vfs.length = vms.length) (hvn : vfs.length < 65536)
    (hvf : ∀ u ∈ vfs, u.length = 16) (hvm : ∀ m ∈ vms, m < 256 ^ ml) :
    parseRreq (encodeRreq ⟨ml, fu, dc, sfs, sms, vfs, vms⟩)
      = some ⟨ml, fu, dc, sfs, sms, vfs, vms⟩ := by
  have efu : (toBytesBE ml fu).length = ml := length_toBytesBE _ _
  have edc : (toBytesBE ml dc).length = ml := length_toBytesBE _ _
  have e2s : (toBytesBE 2 sfs.length).length = 2 := length_toBytesBE _ _
  have e2v : (toBytesBE 2 vfs.length).length = 2 := length_toBytesBE _ _
  have henc : encodeRreq ⟨ml, fu, dc, sfs, sms, vfs, vms⟩
      = ml :: (toBytesBE ml fu ++ (toBytesBE ml dc ++
        (toBytesBE 2 sfs.length ++ (encodeRreqStd ml sfs sms ++
        (toBytesBE 2 vfs.length ++ encodeRreqVnd ml vfs vms))))) := by
    rw [encodeRreq]
    simp [List.append_assoc]
  set rest := toBytesBE ml fu ++ (toBytesBE ml dc ++
    (toBytesBE 2 sfs.length ++ (encodeRreqStd ml sfs sms ++
    (toBytesBE 2 vfs.length ++ encodeRreqVnd ml vfs vms)))) with hrest
  have htfu : rest.take ml = toBytesBE ml fu := by
    rw [hrest, List.take_left' efu]
  have htdc : (rest.drop ml).take ml = toBytesBE ml dc := by
    rw [hrest, List.drop_left' efu, List.take_left' edc]
  have hd2ml : (rest.drop (2 * ml)).take 2 = toBytesBE 2 sfs.length := by
    have hpre : (toBytesBE ml fu ++ toBytesBE ml dc).length = 2 * ml := by
      simp [efu, edc]
      omega
    rw [hrest, ← List.append_assoc, List.drop_left' hpre,
      List.take_left' e2s]
  have hdrest : rest.drop (2 * ml + 2)
      = encodeRreqStd ml sfs sms ++
        (toBytesBE 2 vfs.length ++ encodeRreqVnd ml vfs vms) := by
    have hpre : (toBytesBE ml fu ++ toBytesBE ml dc ++
        toBytesBE 2 sfs.length).length = 2 * ml + 2 := by
      simp [efu, edc, e2s]
      omega
    rw [hrest, ← List.append_assoc, ← List.append_assoc,
      List.drop_left' hpre]
  have hlenrest : 2 * ml + 2 ≤ rest.length := by
    rw [hrest]
    simp only [List.length_append, efu, edc, e2s]
    omega
  have hstd := parseRreqStd_roundtrip ml sfs sms
    (toBytesBE 2 vfs.length ++ encodeRreqVnd ml vfs vms) hsl hsm hsf
  have hvndtake : (toBytesBE 2 vfs.length ++ encodeRreqVnd ml vfs vms).take 2
      = toBytesBE 2 vfs.length := List.take_left' e2v
  have hvnddrop : (toBytesBE 2 vfs.length ++ encodeRreqVnd ml vfs vms).drop 2
      = encodeRreqVnd ml vfs vms := List.drop_left' e2v
  have hvnd := parseRreqVnd_roundtrip ml vfs vms [] hvl hvm hvf
  rw [List.append_nil] at hvnd
  have hpow2 : (256 : Nat) ^ 2 = 65536 := by norm_num
  have h2r : 2 ≤ (toBytesBE 2 vfs.length ++ encodeRreqVnd ml vfs vms).length := by
    simp [e2v]
  have hv2 : fromBytesBE (toBytesBE 2 vfs.length) = vfs.length :=
    fromBytesBE_toBytesBE_of_lt (by omega)
  have hs2 : fromBytesBE (toBytesBE 2 sfs.length) = sfs.length :=
    fromBytesBE_toBytesBE_of_lt (by omega)
  have hfu' : fromBytesBE (toBytesBE ml fu) = fu :=
    fromBytesBE_toBytesBE_of_lt hfu
  have hdc' : fromBytesBE (toBytesBE ml dc) = dc :=
    fromBytesBE_toBytesBE_of_lt hdc
  rw [henc, parseRreq, if_pos ⟨hml, hlenrest⟩, hd2ml, hs2, hdrest, hstd]
  simp [h2r, hvndtake, hvnddrop, hv2, hvnd, htfu, htdc, hfu', hdc']
  rw [e2v]
  omega

theorem rreq_variable_mask_width_roundtrip_witness :
    parseRreq (encodeRreq ⟨3, 65535, 0,
      [5, 42, 45, 2, 18, 19, 1, 8, 12, 31, 20],
      [1, 2, 3, 4, 5, 6, 7, 8, 9, 10, 11], [], []⟩)
      = some ⟨3, 65535, 0, [5, 42, 45, 2, 18, 19, 1, 8, 12, 31, 20],
        [1, 2, 3, 4, 5, 6, 7, 8, 9, 10, 11], [], []⟩ :=
  rreq_variable_mask_width_roundtrip 3 65535 0
    [5, 42, 45, 2, 18, 19, 1, 8, 12, 31, 20]
    [1, 2, 3, 4, 5, 6, 7, 8, 9, 10, 11] [] []
    (by decide) (by decide) (by decide) (by decide) (by decide)
    (by decide) (by decide) (by decide) (by decide) (by decide) (by decide)

/-- C1: wrapping a list of well-formed boxes (Association, Number List,
XML, Label, Fragment Table, Fragment List and the other kinds) to a file
and parsing that file back reproduces the box list exactly: same box ids
in the same order and equal field values, with no decode warnings. -/
theorem parse_after_wrap_restores_boxes (boxes : List Box) (data : List Nat)
    (fuel : Nat) (hwf : wfList boxes = true) (hw : wrap boxes = .ok data)
    (hfuel : data.length < fuel) :
    parseBoxSeq fuel data = some (boxes, []) := by
  have hdata := wrap_ok_eq boxes data hw
  subst hdata
  exact parse_serialize_boxes boxes fuel hwf hfuel

set_option maxRecDepth 10000 in
theorem parse_after_wrap_restores_boxes_witness :
    parseBoxSeq 200 (serializeBoxes c1Boxes) = some (c1Boxes, []) :=
  parse_after_wrap_restores_boxes c1Boxes (serializeBoxes c1Boxes) 200
    (by rfl) (by rfl) (by decide)

/-- C10: a box with an unrecognized 4-byte id whose payload is itself a
well-formed box sequence parses without failing — the builder recurses
into the payload, the resulting tree exposes the unknown id verbatim with
the parsed children, and a decode warning identifies the box as
unrecognized. -/
theorem unknown_superbox_recursed (id payload : List Nat) (cs : List Box)
    (ws : List String) (fuel : Nat)
    (hid4 : id.length = 4) (hunk : boxKindOf id = BoxKind.unknownK)
    (hne : payload ≠ []) (hlen : payload.length + 8 < 4294967296)
    (hrec : parseBoxSeq fuel payload = some (cs, ws)) :
    parseBoxSeq (fuel + 1) (mkBox id payload)
      = some ([Box.unknownBox id cs payload], warnUnknown id :: ws) := by
  have hone : parseOneBox (parseBoxSeq fuel) (mkBox id payload)
      = some (Box.unknownBox id cs payload, warnUnknown id :: ws, []) := by
    have h := parseOneBox_mkBox (parseBoxSeq fuel) id payload [] hid4 hlen
    rw [List.append_nil] at h
    rw [h]
    have hdec : decodeBody (parseBoxSeq fuel) id payload
        = (Box.unknownBox id cs payload, warnUnknown id :: ws) := by
      unfold decodeBody
      rw [hunk, if_neg hne, hrec]
    rw [hdec]
  have hmkne : mkBox id payload ≠ [] := by
    intro hcon
    have hl := congrArg List.length hcon
    rw [mkBox_length, hid4] at hl
    simp at hl
  rw [parseBoxSeq, if_neg hmkne, hone]
  cases fuel with
  | zero => simp [parseBoxSeq] at hrec
  | succ f =>
      have hnil : parseBoxSeq (f + 1) [] = some ([], []) := by
        simp [parseBoxSeq]
      simp [hnil]

theorem unknown_superbox_recursed_witness :
    parseBoxSeq 20 (mkBox grpId freePayloadBytes)
      = some ([Box.unknownBox grpId [Box.freeBox [0, 0, 0, 0]]
          freePayloadBytes], [warnUnknown grpId]) :=
  unknown_superbox_recursed grpId freePayloadBytes
    [Box.freeBox [0, 0, 0, 0]] [] 19
    (by rfl) (by rfl) (by decide) (by decide) (by rfl)

theorem write_fragmentTable_validation_witness :
    writeBox (Box.fragmentTable []) = .error .fragmentTableError :=
  (write_fragmentTable_validation []).1 rfl

theorem write_fragmentList_validation_witness :
    writeBox (Box.fragmentList [0] [1132288] [0])
      = .error .fragmentListError :=
  (write_fragmentList_validation [0] [1132288] [0]).2.mpr (by decide)

theorem wrap_dataReference_rule_witness :
    wrap [Box.dataReference [], Box.dataReference []]
      = .error .dataReferenceError :=
  (wrap_dataReference_rule [Box.dataReference [], Box.dataReference []]).mpr
    (Or.inl (by decide))

theorem wrap_label_rule_witness :
    wrap [Box.jp2Header [Box.labelBox [104, 105]]] = .error .labelError :=
  (wrap_label_rule [Box.jp2Header [Box.labelBox [104, 105]]]
    (by decide)).mpr (by decide)

theorem wrap_brand_compatibility_rules_witness :
    wrap [Box.fileType jpxBrand 0 [jpxbBrand], Box.association []]
      = .error .compatibilityError :=
  (wrap_brand_compatibility_rules
    [Box.fileType jpxBrand 0 [jpxbBrand], Box.association []]
    jpxBrand [jpxbBrand] rfl (by rfl) (by rfl) (by rfl)).1 rfl (by rfl)

end Glymur

